import Mathlib

/-!
Verification of the pretty_yaml repository (YAML parser + pretty printer).

This file contains a shallow embedding of the `yaml_parser` crate
(`src/yaml_parser/src/lib.rs`, `indent.rs`, `set_state.rs`, `verify_state.rs`)
and of the parts of the `pretty_yaml` printer
(`src/pretty_yaml/src/printer.rs`) needed for the claims, followed by
theorems settling each claim.

Modelling conventions:
* Rust `&str` input is modelled as `List Char`; token texts are `List Char`.
* The winnow `Stateful` input is `PInput` (remaining characters + state).
* winnow's `ErrMode::Backtrack`/`ErrMode::Cut` are the `bt`/`cut`
  constructors of `PR`.  In winnow, a `Stateful` checkpoint only restores
  the stream position, not the user state, so errors here carry the state
  that survives the failed parse.
* `u64` arithmetic on the indent bitset uses Rust release-mode semantics:
  shift amounts are masked by 64 and subtraction wraps modulo 2^64.
-/

namespace PrettyYaml

/-- `SyntaxKind` from `src/yaml_parser/src/lib.rs`. -/
inductive SyntaxKind where
  | L_BRACE | R_BRACE | L_BRACKET | R_BRACKET | AMPERSAND | ASTERISK
  | COLON | COMMA | EXCLAMATION_MARK | PLUS | MINUS | QUESTION_MARK
  | BAR | PERCENT | INDENT_INDICATOR | GREATER_THAN
  | VERBATIM_TAG | SHORTHAND_TAG | TAG_CHAR
  | TAG_HANDLE_NAMED | TAG_HANDLE_SECONDARY | TAG_HANDLE_PRIMARY
  | TAG_PREFIX | ANCHOR_NAME
  | DOUBLE_QUOTED_SCALAR | SINGLE_QUOTED_SCALAR | PLAIN_SCALAR
  | BLOCK_SCALAR_TEXT | DIRECTIVES_END | DIRECTIVE_NAME | YAML_VERSION
  | DIRECTIVE_PARAM | DOCUMENT_END
  | PROPERTIES | TAG_PROPERTY | TAG_HANDLE | NON_SPECIFIC_TAG
  | ANCHOR_PROPERTY | ALIAS
  | FLOW_SEQ | FLOW_SEQ_ENTRIES | FLOW_SEQ_ENTRY
  | FLOW_MAP | FLOW_MAP_ENTRIES | FLOW_MAP_ENTRY | FLOW_MAP_KEY
  | FLOW_MAP_VALUE | FLOW_PAIR | FLOW
  | CHOMPING_INDICATOR | BLOCK_SCALAR
  | BLOCK_SEQ | BLOCK_SEQ_ENTRY
  | BLOCK_MAP | BLOCK_MAP_ENTRY | BLOCK_MAP_KEY | BLOCK_MAP_VALUE
  | BLOCK | YAML_DIRECTIVE | TAG_DIRECTIVE | RESERVED_DIRECTIVE
  | DIRECTIVE | DOCUMENT | COMMENT | WHITESPACE | ROOT
  deriving DecidableEq, Repr

/-- Green tree element (`rowan` `NodeOrToken<GreenNode, GreenToken>`):
a token carries its exact text, a node carries ordered children. -/
inductive Green where
  | token (kind : SyntaxKind) (text : List Char)
  | node (kind : SyntaxKind) (children : List Green)
  deriving Repr

/-- `BlockFlowCtx` from `src/yaml_parser/src/lib.rs`. -/
inductive BlockFlowCtx where
  | BlockIn | BlockOut | BlockKey | FlowIn | FlowOut | FlowKey
  deriving DecidableEq, Repr

/-- Parser `State` from `src/yaml_parser/src/lib.rs`.
`trackedIndents` is the `u64` bitset, kept as a `Nat` with wrapping
applied at each operation. -/
structure RState where
  prevIndent : Option Nat
  indent : Nat
  trackedIndents : Nat
  lastWsHasNl : Bool
  bfCtx : BlockFlowCtx
  documentTop : Bool
  prevDocumentFinished : Bool
  deriving DecidableEq, Repr

/-- `Stateful<&str, State>`: remaining input plus threaded state. -/
structure PInput where
  rem : List Char
  st : RState
  deriving Repr

/-- Result of running a parser: success with remaining input, or a
backtrackable / unrecoverable (`ErrMode::Cut`) error.  Errors carry the
state left on the input, since winnow checkpoints restore only the
stream position, never the user state. -/
inductive PR (α : Type) where
  | ok (v : α) (i : PInput)
  | bt (st : RState)
  | cut (st : RState)

/-- A winnow parser over `PInput`. -/
def PParser (α : Type) : Type := PInput → PR α

instance : Monad PParser where
  pure v := fun i => .ok v i
  bind p f := fun i =>
    match p i with
    | .ok v i2 => f v i2
    | .bt st => .bt st
    | .cut st => .cut st

/-- Rust release-mode `1u64 << n`: the shift amount is masked by the bit
width. -/
def shl1 (n : Nat) : Nat := 2 ^ (n % 64)

/-- Rust release-mode wrapping `u64` subtraction `a - b` (for `a b < 2^64`). -/
def u64sub (a b : Nat) : Nat := (a + 2 ^ 64 - b) % 2 ^ 64

/-- Rust `u64` bitwise test `a & (1 << n) == 0` (release semantics). -/
def u64BitAbsent (a n : Nat) : Bool := a &&& shl1 n == 0

/-! ## winnow combinators -/

/-- winnow `any`. -/
def pAny : PParser Char := fun i =>
  match i.rem with
  | [] => .bt i.st
  | c :: rest => .ok c ⟨rest, i.st⟩

/-- winnow char-literal parser (`'c'`). -/
def pChar (c : Char) : PParser Char := fun i =>
  match i.rem with
  | d :: rest => if d = c then .ok c ⟨rest, i.st⟩ else .bt i.st
  | [] => .bt i.st

/-- winnow string-literal parser (`"..."`), returning the matched text. -/
def pLit (s : List Char) : PParser (List Char) := fun i =>
  if s.isPrefixOf i.rem then .ok s ⟨i.rem.drop s.length, i.st⟩ else .bt i.st

/-- winnow `one_of` with a predicate. -/
def pOneOf (f : Char → Bool) : PParser Char := fun i =>
  match i.rem with
  | c :: rest => if f c then .ok c ⟨rest, i.st⟩ else .bt i.st
  | [] => .bt i.st

/-- winnow `none_of`: accept one char for which `f` is false. -/
def pNoneOf (f : Char → Bool) : PParser Char := pOneOf (fun c => ! f c)

/-- winnow `take_while(min.., f)` (unbounded upper end): the maximal run
of chars satisfying `f`, failing if shorter than `min`. -/
def pTakeWhileMin (min : Nat) (f : Char → Bool) : PParser (List Char) := fun i =>
  let run := i.rem.takeWhile f
  if run.length < min then .bt i.st
  else .ok run ⟨i.rem.drop run.length, i.st⟩

/-- winnow `take_till(1.., f)`. -/
def pTakeTill1 (f : Char → Bool) : PParser (List Char) :=
  pTakeWhileMin 1 (fun c => ! f c)

/-- winnow `eof`. -/
def pEof : PParser Unit := fun i =>
  match i.rem with
  | [] => .ok () i
  | _ :: _ => .bt i.st

/-- winnow `opt`: catches only `Backtrack`; the stream is reset but state
mutations survive. -/
def pOpt {α : Type} (p : PParser α) : PParser (Option α) := fun i =>
  match p i with
  | .ok v i2 => .ok (some v) i2
  | .bt st => .ok none ⟨i.rem, st⟩
  | .cut st => .cut st

/-- winnow `peek`: run the parser, reset the stream position (state
mutations survive). -/
def pPeek {α : Type} (p : PParser α) : PParser α := fun i =>
  match p i with
  | .ok v i2 => .ok v ⟨i.rem, i2.st⟩
  | .bt st => .bt st
  | .cut st => .cut st

/-- winnow `not`: succeed without consuming iff the parser backtracks. -/
def pNot {α : Type} (p : PParser α) : PParser Unit := fun i =>
  match p i with
  | .ok _ i2 => .bt i2.st
  | .bt st => .ok () ⟨i.rem, st⟩
  | .cut st => .cut st

/-- winnow `cut_err`: turn a backtrack into an unrecoverable error. -/
def pCutErr {α : Type} (p : PParser α) : PParser α := fun i =>
  match p i with
  | .ok v i2 => .ok v i2
  | .bt st => .cut st
  | .cut st => .cut st

/-- winnow ordered choice `alt`: each branch starts from the same stream
position; state changes made by failed branches carry over (the
`Stateful` checkpoint does not save the state). -/
def pAlt {α : Type} : List (PParser α) → PParser α
  | [] => fun i => .bt i.st
  | p :: rest => fun i =>
    match p i with
    | .ok v i2 => .ok v i2
    | .bt st => pAlt rest ⟨i.rem, st⟩
    | .cut st => .cut st

/-- winnow `repeat(0.., p)` (with explicit fuel; each iteration of the
real parser consumes at least one char, so any fuel above the input
length is exact).  A successful zero-length match is winnow's
`assert`-style unrecoverable error. -/
def pRepeat0 {α : Type} : Nat → PParser α → PParser (List α)
  | 0, _ => fun i => .ok [] i
  | fuel + 1, p => fun i =>
    match p i with
    | .bt st => .ok [] ⟨i.rem, st⟩
    | .cut st => .cut st
    | .ok v i2 =>
      if i2.rem.length = i.rem.length then .cut i2.st
      else
        match pRepeat0 fuel p i2 with
        | .ok vs i3 => .ok (v :: vs) i3
        | .bt st => .bt st
        | .cut st => .cut st

/-- winnow `repeat(1.., p)`. -/
def pRepeat1 {α : Type} (fuel : Nat) (p : PParser α) : PParser (List α) := do
  let v ← p
  let vs ← pRepeat0 fuel p
  pure (v :: vs)

/-- winnow `repeat_till(0.., p, term)`: try the terminator first, on
backtrack reset the stream and run `p`. -/
def pRepeatTill {α β : Type} : Nat → PParser α → PParser β → PParser (List α × β)
  | 0, _, _ => fun i => .bt i.st
  | fuel + 1, p, term => fun i =>
    match term i with
    | .ok v i2 => .ok ([], v) i2
    | .cut st => .cut st
    | .bt st =>
      match p ⟨i.rem, st⟩ with
      | .bt st2 => .bt st2
      | .cut st2 => .cut st2
      | .ok v i2 =>
        if i2.rem.length = i.rem.length then .cut i2.st
        else
          match pRepeatTill fuel p term i2 with
          | .ok (vs, t) i3 => .ok (v :: vs, t) i3
          | .bt st2 => .bt st2
          | .cut st2 => .cut st2

/-- winnow `Parser::verify`. -/
def pVerify {α : Type} (p : PParser α) (f : α → Bool) : PParser α := fun i =>
  match p i with
  | .ok v i2 => if f v then .ok v i2 else .bt i2.st
  | .bt st => .bt st
  | .cut st => .cut st

/-- winnow `Parser::verify_map`. -/
def pVerifyMap {α β : Type} (p : PParser α) (f : α → Option β) : PParser β := fun i =>
  match p i with
  | .ok v i2 =>
    match f v with
    | some w => .ok w i2
    | none => .bt i2.st
  | .bt st => .bt st
  | .cut st => .cut st

/-- winnow `cond`. -/
def pCond {α : Type} (b : Bool) (p : PParser α) : PParser (Option α) := fun i =>
  if b then
    match p i with
    | .ok v i2 => .ok (some v) i2
    | .bt st => .bt st
    | .cut st => .cut st
  else .ok none i

/-- winnow `Parser::recognize`: the exact consumed text. -/
def pRecognize {α : Type} (p : PParser α) : PParser (List Char) := fun i =>
  match p i with
  | .ok _ i2 => .ok (i.rem.take (i.rem.length - i2.rem.length)) i2
  | .bt st => .bt st
  | .cut st => .cut st

/-- winnow `Parser::with_recognized`. -/
def pWithRecognized {α : Type} (p : PParser α) : PParser (α × List Char) := fun i =>
  match p i with
  | .ok v i2 => .ok (v, i.rem.take (i.rem.length - i2.rem.length)) i2
  | .bt st => .bt st
  | .cut st => .cut st

/-- The repository's `SetState` combinator (`set_state.rs`): run the
child with a modified state, then unconditionally restore the original
state. -/
def pSetState {α : Type} (f : RState → RState) (p : PParser α) : PParser α := fun i =>
  match p ⟨i.rem, f i.st⟩ with
  | .ok v i2 => .ok v ⟨i2.rem, i.st⟩
  | .bt _ => .bt i.st
  | .cut _ => .cut i.st

/-- The repository's `verify_state` combinator (`verify_state.rs`). -/
def pVerifyState (f : RState → Bool) : PParser Unit := fun i =>
  if f i.st then .ok () i else .bt i.st

/-- `dispatch!(peek(any); ...)`: peek one char and choose a branch. -/
def pDispatch {α : Type} (f : Char → PParser α) : PParser α := fun i =>
  match i.rem with
  | [] => .bt i.st
  | c :: _ => f c i

/-- `dispatch!(peek((any, any)); ...)`: peek two chars. -/
def pDispatch2 {α : Type} (f : Char → Char → PParser α) : PParser α := fun i =>
  match i.rem with
  | a :: b :: _ => f a b i
  | _ => .bt i.st

/-- winnow `fail`. -/
def pFail {α : Type} : PParser α := fun i => .bt i.st

/-! ## Character classes and whitespace helpers
(`src/yaml_parser/src/lib.rs`) -/

/-- `CHAR_LOOKUP`, reproduced verbatim: bit 0 indicator, bit 1 flow
indicator, bit 2 URL char. -/
def CHAR_LOOKUP : List Nat :=
  [0, 0, 0, 0, 0, 0, 0, 0, 0, 0, 0, 0, 0, 0, 0, 0, 0, 0, 0, 0, 0, 0, 0, 0, 0, 0, 0, 0, 0, 0, 0, 0,
   0, 5, 1, 5, 4, 5, 5, 5, 4, 4, 5, 4, 7, 5, 4, 4, 4, 4, 4, 4, 4, 4, 4, 4, 4, 4, 5, 4, 0, 4, 1, 5,
   4, 4, 4, 4, 4, 4, 4, 4, 4, 4, 4, 4, 4, 4, 4, 4, 4, 4, 4, 4, 4, 4, 4, 4, 4, 4, 4, 7, 0, 7, 0, 4,
   0, 4, 4, 4, 4, 4, 4, 4, 4, 4, 4, 4, 4, 4, 4, 4, 4, 4, 4, 4, 4, 4, 4, 4, 4, 4, 4, 3, 1, 3, 4, 0,
   0, 0, 0, 0, 0, 0, 0, 0, 0, 0, 0, 0, 0, 0, 0, 0, 0, 0, 0, 0, 0, 0, 0, 0, 0, 0, 0, 0, 0, 0, 0, 0,
   0, 0, 0, 0, 0, 0, 0, 0, 0, 0, 0, 0, 0, 0, 0, 0, 0, 0, 0, 0, 0, 0, 0, 0, 0, 0, 0, 0, 0, 0, 0, 0,
   0, 0, 0, 0, 0, 0, 0, 0, 0, 0, 0, 0, 0, 0, 0, 0, 0, 0, 0, 0, 0, 0, 0, 0, 0, 0, 0, 0, 0, 0, 0, 0,
   0, 0, 0, 0, 0, 0, 0, 0, 0, 0, 0, 0, 0, 0, 0, 0, 0, 0, 0, 0, 0, 0, 0, 0, 0, 0, 0, 0, 0, 0, 0, 0]

def is_indicator (c : Char) : Bool :=
  c.toNat < 128 && (CHAR_LOOKUP.getD c.toNat 0) &&& 1 != 0

def is_flow_indicator (c : Char) : Bool :=
  c.toNat < 128 && (CHAR_LOOKUP.getD c.toNat 0) &&& 2 != 0

def is_url_char (c : Char) : Bool :=
  c.toNat < 128 && (CHAR_LOOKUP.getD c.toNat 0) &&& 4 != 0

def is_word_char (c : Char) : Bool :=
  c.isAlphanum || c = '-'

def is_tag_char (c : Char) : Bool :=
  is_url_char c && c != '!' && ! is_flow_indicator c

/-- Rust `char::is_ascii_whitespace`: space, tab, newline, carriage
return, form feed. -/
def isAsciiWs (c : Char) : Bool :=
  c = ' ' || c = '\t' || c = '\n' || c = '\r' || c = '\x0c'

/-- winnow `ascii::space1` (space or tab). -/
def pSpace1 : PParser (List Char) :=
  pTakeWhileMin 1 (fun c => c = ' ' || c = '\t')

/-- winnow `ascii::multispace1` (space, tab, newline, carriage return). -/
def pMultispace1 : PParser (List Char) :=
  pTakeWhileMin 1 (fun c => c = ' ' || c = '\t' || c = '\n' || c = '\r')

/-- winnow `ascii::digit1`. -/
def pDigit1 : PParser (List Char) :=
  pTakeWhileMin 1 (fun c => c.isDigit)

/-- winnow `ascii::line_ending` (`"\n"` or `"\r\n"`). -/
def pLineEnding : PParser (List Char) :=
  pAlt [pLit ['\n'], pLit ['\r', '\n']]

/-- winnow `ascii::till_line_ending`: chars up to a `\n` or `\r\n`;
a bare `\r` not followed by `\n` is an error. -/
def pTillLineEnding : PParser (List Char) := fun i =>
  let run := i.rem.takeWhile (fun c => c ≠ '\n' && c ≠ '\r')
  match i.rem.drop run.length with
  | '\r' :: c :: _ => if c = '\n' then .ok run ⟨i.rem.drop run.length, i.st⟩ else .bt i.st
  | ['\r'] => .bt i.st
  | rest => .ok run ⟨rest, i.st⟩

/-- winnow `ascii::take_escaped(normal, control, escapable)` as used with
single-char `normal` and `escapable = any`: a possibly empty run of
normal chars and `control`-escaped chars.  Fuel bounded by input length. -/
def pTakeEscapedAux (normal : Char → Bool) (control : Char) :
    Nat → List Char → Option (List Char)
  | _, [] => some []
  | 0, _ :: _ => none
  | fuel + 1, c :: rest =>
    if normal c then pTakeEscapedAux normal control fuel rest
    else if c = control then
      match rest with
      | [] => none
      | _ :: rest2 => pTakeEscapedAux normal control fuel rest2
    else some (c :: rest)

def pTakeEscaped (normal : Char → Bool) (control : Char) : PParser Unit := fun i =>
  match pTakeEscapedAux normal control i.rem.length i.rem with
  | some rest => .ok () ⟨rest, i.st⟩
  | none => .bt i.st

/-- `detect_base_indent` from `src/yaml_parser/src/lib.rs`. -/
def detect_base_indent (code : List Char) : Option Nat :=
  (code.findIdx? (fun c => ! isAsciiWs c)).map (fun first_contentful =>
    let prefix0 := code.take first_contentful
    match (prefix0.reverse.findIdx? (fun c => c = '\n')).map
        (fun ridx => first_contentful - 1 - ridx) with
    | some first_linebreak => first_contentful - first_linebreak - 1
    | none => first_contentful)

/-- `detect_ws_indent` from `src/yaml_parser/src/lib.rs`:
distance from the last line break to the end of the text. -/
def detect_ws_indent (text : List Char) : Option Nat :=
  (text.reverse.findIdx? (fun c => c = '\n' || c = '\r')).map id

/-! ## Grammar (`src/yaml_parser/src/lib.rs`), non-recursive productions -/

/-- `tok` helper. -/
def tokG (kind : SyntaxKind) (text : List Char) : Green := .token kind text

/-- `node` helper. -/
def nodeG (kind : SyntaxKind) (children : List Green) : Green := .node kind children

/-- `ascii_char::<C>(kind)`. -/
def ascii_char (c : Char) (kind : SyntaxKind) : PParser Green := do
  let _ ← pChar c
  pure (tokG kind [c])

/-- `comment`: `#` to end of line. -/
def comment : PParser Green := do
  let text ← pRecognize (do
    let _ ← pChar '#'
    let _ ← pTillLineEnding
    pure ())
  pure (tokG .COMMENT text)

/-- `space`: horizontal whitespace, clears `last_ws_has_nl`. -/
def space : PParser Green := fun i =>
  match pSpace1 i with
  | .ok text i2 => .ok (tokG .WHITESPACE text) ⟨i2.rem, { i2.st with lastWsHasNl := false }⟩
  | .bt st => .bt st
  | .cut st => .cut st

/-- `linebreaks_or_spaces` (no tabs). -/
def linebreaks_or_spaces : PParser (List Char) :=
  pTakeWhileMin 1 (fun c => c = ' ' || c = '\n' || c = '\r')

/-- `ws`: whitespace updating `indent` and `last_ws_has_nl`. -/
def ws : PParser Green := fun i =>
  match pMultispace1 i with
  | .ok text i2 =>
    match detect_ws_indent text with
    | some indent =>
      .ok (tokG .WHITESPACE text)
        ⟨i2.rem, { i2.st with indent := indent, lastWsHasNl := true }⟩
    | none =>
      .ok (tokG .WHITESPACE text) ⟨i2.rem, { i2.st with lastWsHasNl := false }⟩
  | .bt st => .bt st
  | .cut st => .cut st

/-- `cmt_or_ws`. -/
def cmt_or_ws : PParser Green :=
  pDispatch (fun c =>
    if c = ' ' || c = '\n' || c = '\t' || c = '\r' then ws
    else if c = '#' then comment
    else pFail)

/-- `cmts_or_ws0`. -/
def cmts_or_ws0 : PParser (List Green) := fun i =>
  pRepeat0 (i.rem.length + 1) cmt_or_ws i

/-- `cmts_or_ws1`. -/
def cmts_or_ws1 : PParser (List Green) := fun i =>
  pRepeat1 (i.rem.length + 1) cmt_or_ws i

/-- `stateless_cmt_or_ws`. -/
def stateless_cmt_or_ws : PParser Green :=
  pDispatch (fun c =>
    if c = ' ' || c = '\n' || c = '\t' || c = '\r' then do
      let text ← pMultispace1
      pure (tokG .WHITESPACE text)
    else if c = '#' then comment
    else pFail)

/-- `stateless_cmts_or_ws0`. -/
def stateless_cmts_or_ws0 : PParser (List Green) := fun i =>
  pRepeat0 (i.rem.length + 1) stateless_cmt_or_ws i

/-- `stateless_cmts_or_ws1`. -/
def stateless_cmts_or_ws1 : PParser (List Green) := fun i =>
  pRepeat1 (i.rem.length + 1) stateless_cmt_or_ws i

/-- `stateless_separate` ("s-separate"). -/
def stateless_separate : PParser (List Green) := fun i =>
  if i.st.bfCtx = .FlowKey || i.st.bfCtx = .BlockKey then
    match pSpace1 i with
    | .ok text i2 => .ok [tokG .WHITESPACE text] i2
    | .bt st => .bt st
    | .cut st => .cut st
  else stateless_cmts_or_ws1 i

/-- `anchor_name`. -/
def anchor_name : PParser Green := do
  let text ← pTakeTill1 (fun c => is_flow_indicator c || isAsciiWs c)
  pure (tokG .ANCHOR_NAME text)

/-- `verbatim_tag`. -/
def verbatim_tag : PParser Green := do
  let text ← pRecognize (do
    let _ ← pLit ['!', '<']
    let _ ← pCutErr (do
      let _ ← pTakeWhileMin 1 is_url_char
      let _ ← pChar '>'
      pure ())
    pure ())
  pure (tokG .VERBATIM_TAG text)

/-- `tag_handle`. -/
def tag_handle : PParser Green := do
  let child ← pAlt [
    (do
      let text ← pRecognize (do
        let _ ← pChar '!'
        let _ ← pTakeWhileMin 1 is_word_char
        let _ ← pChar '!'
        pure ())
      pure (tokG .TAG_HANDLE_NAMED text)),
    (do
      let text ← pLit ['!', '!']
      pure (tokG .TAG_HANDLE_SECONDARY text)),
    (do
      let text ← pLit ['!']
      pure (tokG .TAG_HANDLE_PRIMARY text))]
  pure (nodeG .TAG_HANDLE [child])

/-- `shorthand_tag`. -/
def shorthand_tag : PParser Green := do
  let handle ← tag_handle
  let chars ← pTakeWhileMin 1 is_tag_char
  pure (nodeG .SHORTHAND_TAG [handle, tokG .TAG_CHAR chars])

/-- `non_specific_tag`. -/
def non_specific_tag : PParser Green := do
  let child ← ascii_char '!' .EXCLAMATION_MARK
  pure (nodeG .NON_SPECIFIC_TAG [child])

/-- `tag_property`. -/
def tag_property : PParser Green := do
  let child ← pAlt [verbatim_tag, shorthand_tag, non_specific_tag]
  pure (nodeG .TAG_PROPERTY [child])

/-- `anchor_property`. -/
def anchor_property : PParser Green := do
  let amp ← ascii_char '&' .AMPERSAND
  let name ← pCutErr anchor_name
  pure (nodeG .ANCHOR_PROPERTY [amp, name])

/-- `alias` (named `aliasP`; `alias` is a Lean keyword). -/
def aliasP : PParser Green := do
  let star ← ascii_char '*' .ASTERISK
  let name ← pCutErr anchor_name
  pure (nodeG .ALIAS [star, name])

/-- `properties`. -/
def properties : PParser Green := do
  let (first, second) ← pDispatch (fun c =>
    if c = '&' then do
      let a ← anchor_property
      let s ← pOpt (do
        let pr ← (do
          let trivias ← stateless_separate
          let t ← tag_property
          pure (trivias, t))
        let _ ← pPeek (pNot (do
          let _ ← pSpace1
          let _ ← pOneOf (fun c2 => c2 = '&' || c2 = '!')
          pure ()))
        pure pr)
      pure (a, s)
    else if c = '!' then do
      let t ← pCutErr tag_property
      let s ← pOpt (do
        let pr ← (do
          let trivias ← stateless_separate
          let a ← anchor_property
          pure (trivias, a))
        let _ ← pPeek (pNot (do
          let _ ← pSpace1
          let _ ← pOneOf (fun c2 => c2 = '&' || c2 = '!')
          pure ()))
        pure pr)
      pure (t, s)
    else pFail)
  match second with
  | some (trivias, second) => pure (nodeG .PROPERTIES (first :: trivias ++ [second]))
  | none => pure (nodeG .PROPERTIES [first])

/-- `double_qouted_scalar` (sic). -/
def double_qouted_scalar : PParser Green := do
  let text ← pRecognize (do
    let _ ← pChar '"'
    let _ ← pCutErr (do
      let _ ← pTakeEscaped (fun c => c ≠ '\\' && c ≠ '"') '\\'
      let _ ← pChar '"'
      pure ())
    pure ())
  pure (tokG .DOUBLE_QUOTED_SCALAR text)

/-! ### Indent combinators (`src/yaml_parser/src/indent.rs`) -/

/-- `TrackIndent`: on success set the bit for the (post-run) indent. -/
def track_indent {α : Type} (p : PParser α) : PParser α := fun i =>
  match p i with
  | .ok v i2 =>
    .ok v ⟨i2.rem, { i2.st with
      trackedIndents := i2.st.trackedIndents ||| shl1 i2.st.indent }⟩
  | .bt st => .bt st
  | .cut st => .cut st

/-- `VerifyIndent`: record the indent, run the child, then succeed /
hard-fail / clear-bit-and-backtrack as in `indent.rs` lines 50-61. -/
def verify_indent {α : Type} (p : PParser α) : PParser α := fun i =>
  let indent := i.st.indent
  match p i with
  | .ok v i2 =>
    if i2.st.indent = indent || i2.rem.isEmpty then .ok v i2
    else if u64BitAbsent i2.st.trackedIndents i2.st.indent then .cut i2.st
    else .bt { i2.st with
      trackedIndents := u64sub i2.st.trackedIndents (shl1 indent) }
  | .bt st => .bt st
  | .cut st => .cut st

/-- `StorePrevIndent`. -/
def store_prev_indent {α : Type} (p : PParser α) : PParser α := fun i =>
  let prev := i.st.prevIndent
  match p ⟨i.rem, { i.st with prevIndent := some i.st.indent }⟩ with
  | .ok v i2 => .ok v i2
  | .bt st => .bt { st with prevIndent := prev }
  | .cut st => .cut { st with prevIndent := prev }

/-- `RequireDeeperIndent`. -/
def require_deeper_indent {α : Type} (p : PParser α) : PParser α := fun i =>
  if ! i.st.documentTop && i.st.lastWsHasNl &&
      (match i.st.prevIndent with
       | some prev => decide (prev ≥ i.st.indent)
       | none => false) then
    .bt i.st
  else p i

/-- `single_qouted_scalar` (sic). -/
def single_qouted_scalar : PParser Green := do
  let text ← pRecognize (fun i => (do
    let _ ← pChar '\''
    let _ ← pCutErr (do
      let _ ← pRepeat0 (i.rem.length + 1) (pAlt [
        (do let _ ← pNoneOf (fun c => c = '\''); pure ()),
        (do let _ ← pLit ['\'', '\'']; pure ())])
      let _ ← pChar '\''
      pure ())
    pure ()) i)
  pure (tokG .SINGLE_QUOTED_SCALAR text)

/-- `plain_scalar_chars`. -/
def plain_scalar_chars : PParser Unit := fun i =>
  let safe_in := i.st.bfCtx = .FlowIn || i.st.bfCtx = .FlowKey
  (do
    let _ ← pRepeat0 (i.rem.length + 1) (pAlt [
      (do
        let _ ← pTakeTill1 (fun c =>
          isAsciiWs c || c = ':' || (safe_in && is_flow_indicator c))
        pure ()),
      (do
        let _ ← pChar ':'
        let _ ← pPeek (pNoneOf (fun c =>
          isAsciiWs c || (safe_in && is_flow_indicator c)))
        pure ()),
      (do
        let _ ← pSpace1
        let _ ← pPeek (pNot (pAlt [
          (do
            let _ ← pOneOf (fun c =>
              c = '\n' || c = '\r' || c = '#' || (safe_in && is_flow_indicator c))
            pure ()),
          (do
            let _ ← pChar ':'
            let _ ← pOneOf (fun c =>
              isAsciiWs c || (safe_in && is_flow_indicator c))
            pure ()),
          pEof]))
        pure ())])
    pure ()) i

/-- `plain_scalar_one_line`. -/
def plain_scalar_one_line : PParser Unit := do
  let _ ← pAlt [
    pNoneOf (fun c => isAsciiWs c || is_indicator c),
    (do
      let c ← pOneOf (fun c => c = '-' || c = ':' || c = '?')
      let _ ← pPeek (pNoneOf (fun c2 => isAsciiWs c2 || is_flow_indicator c2))
      pure c)]
  plain_scalar_chars

/-- `plain_scalar`. -/
def plain_scalar : PParser Green := fun i =>
  let indent := i.st.indent
  let last_ws_has_nl := i.st.lastWsHasNl
  let document_top := i.st.documentTop
  if i.st.bfCtx = .FlowIn || i.st.bfCtx = .FlowOut then
    let safe_in := i.st.bfCtx = .FlowIn
    (do
      let text ← pRecognize (do
        plain_scalar_one_line
        let _ ← pRepeat0 (i.rem.length + 1) (do
          let _ ← pVerifyMap (do
              let text ← pMultispace1
              let peeked ← pPeek (pOpt (pAlt [
                pRecognize (pOneOf (fun c =>
                  c = '\n' || c = '\r' || c = '#' || (safe_in && is_flow_indicator c))),
                pRecognize (do
                  let _ ← pChar ':'
                  let _ ← pOneOf (fun c =>
                    isAsciiWs c || (safe_in && is_flow_indicator c))
                  pure ()),
                (do
                  let s ← pAlt [pLit ['-', '-', '-'], pLit ['.', '.', '.']]
                  let _ ← pMultispace1
                  pure s),
                (do
                  let _ ← pEof
                  pure ([] : List Char))]))
              pure (text, peeked))
            (fun tp =>
              if (match tp.2 with
                  | some s =>
                    if s = ['-', '-', '-'] || s = ['.', '.', '.'] then
                      ! (tp.1.getLast? = some '\n' || tp.1.getLast? = some '\r')
                    else false
                  | none =>
                    match detect_ws_indent tp.1 with
                    | some detected =>
                      if last_ws_has_nl then decide (detected ≥ indent)
                      else decide (detected > indent) || document_top
                    | none => true : Bool)
              then some tp.1 else none)
          plain_scalar_chars)
        pure ())
      pure (tokG .PLAIN_SCALAR text)) i
  else
    (do
      let text ← pRecognize plain_scalar_one_line
      pure (tokG .PLAIN_SCALAR text)) i

/-- `indent_indicator`: one ASCII digit, value via `str::parse::<usize>`. -/
def indent_indicator : PParser (Green × Nat) := do
  let text ← pRecognize (pOneOf (fun c => c.isDigit))
  pure (tokG .INDENT_INDICATOR text,
    match text with
    | [d] => d.toNat - 48
    | _ => 0)

/-- `chomping_indicator`. -/
def chomping_indicator : PParser Green := do
  let child ← pDispatch (fun c =>
    if c = '+' then ascii_char '+' .PLUS
    else if c = '-' then ascii_char '-' .MINUS
    else if c = ' ' || c = '\n' || c = '\t' || c = '\r' then pFail
    else pCutErr pFail)
  pure (nodeG .CHOMPING_INDICATOR [child])

/-- `block_scalar`. -/
def block_scalar : PParser Green := fun i =>
  let base_indent := i.st.prevIndent.getD i.st.indent
  let document_top := i.st.documentTop
  (do
    let style ← pAlt [ascii_char '|' .BAR, ascii_char '>' .GREATER_THAN]
    let indicator ← pOpt (pAlt [
      (do
        let ii ← indent_indicator
        let ch ← pOpt chomping_indicator
        pure (Sum.inl (ii, ch))),
      (do
        let ch ← chomping_indicator
        let ii ← pOpt indent_indicator
        pure (Sum.inr (ch, ii)))])
    let sp ← pOpt space
    let cmt ← pOpt comment
    let indent0 ← pPeek (pOpt (pVerifyMap linebreaks_or_spaces detect_ws_indent))
    let childrenIndent :=
      (match indicator with
       | some (Sum.inl ((indent_token, indent_value), chomping_token)) =>
         ([indent_token] ++
           (match chomping_token with | some c => [c] | none => []),
          some (base_indent + indent_value))
       | some (Sum.inr (chomping_token, ii)) =>
         (match ii with
          | some (indent_token, indent_value) =>
            ([chomping_token, indent_token], some (base_indent + indent_value))
          | none => ([chomping_token], indent0))
       | none => ([], indent0))
    let children := [style] ++ childrenIndent.1 ++
      (match sp with | some s => [s] | none => []) ++
      (match cmt with | some c => [c] | none => [])
    let indent := childrenIndent.2.getD 0
    let text ← (fun i2 => pCond (decide (indent > base_indent) || document_top)
      (pRecognize (pRepeat0 (i2.rem.length + 1)
        (pVerify (do
            let wsRun ← pVerify linebreaks_or_spaces (fun t =>
              match detect_ws_indent t with
              | some detected => decide (detected ≥ indent)
              | none => false)
            let line ← pTillLineEnding
            pure (wsRun, line))
          (fun wl =>
            ! wl.2.isEmpty &&
            ! ((wl.1.getLast? = some '\n' || wl.1.getLast? = some '\r') &&
               (wl.2 = ['.', '.', '.'] || wl.2 = ['-', '-', '-'])))))) i2)
    match text with
    | some t => pure (nodeG .BLOCK_SCALAR (children ++ [tokG .BLOCK_SCALAR_TEXT t]))
    | none => pure (nodeG .BLOCK_SCALAR children)) i

/-- `flow_collection_state` (YAML rule "in-flow"). -/
def flow_collection_state (st : RState) : RState :=
  { st with bfCtx :=
      match st.bfCtx with
      | .FlowOut => .FlowIn
      | .FlowIn => .FlowIn
      | .BlockKey => .FlowKey
      | .FlowKey => .FlowKey
      | ctx => ctx }

/-- Accumulation step of the `fold` in `flow_sequence_entries` /
`flow_map_entries`. -/
def flowEntriesFold (items : List (Sum (Green × List Green × Option Green) (List Green))) :
    List Green :=
  items.foldl (fun children item =>
    match item with
    | Sum.inl (entry, trivias, comma) =>
      children ++ [entry] ++ trivias ++
        (match comma with | some c => [c] | none => [])
    | Sum.inr trivias => children ++ trivias) []

/-- The ten mutually recursive flow-family productions, at one fuel level. -/
structure FlowFns where
  seq : PParser Green
  seqEntries : PParser Green
  seqEntry : PParser Green
  fmap : PParser Green
  fmapEntries : PParser Green
  fmapEntry : PParser Green
  fpair : PParser Green
  entryKey : PParser Green
  content : PParser Green
  fl : PParser Green

/-- Out of fuel: every production fails (backtrack). -/
def flowFnsZero : FlowFns :=
  ⟨pFail, pFail, pFail, pFail, pFail, pFail, pFail, pFail, pFail, pFail⟩

/-- One unfolding of the mutual recursion; `prev` holds the productions at
the next-smaller fuel.  Bodies transcribe `src/yaml_parser/src/lib.rs`. -/
def flowFnsStep (prev : FlowFns) : FlowFns where
  seq := do
    let l ← ascii_char '[' .L_BRACKET
    let lead ← stateless_cmts_or_ws0
    let entries ← pSetState flow_collection_state prev.seqEntries
    let r ← ascii_char ']' .R_BRACKET
    pure (nodeG .FLOW_SEQ ([l] ++ lead ++ [entries, r]))
  seqEntries := fun i =>
    (do
      let items ← pRepeat0 (i.rem.length + 1) (pAlt [
        (do
          let entry ← prev.seqEntry
          let trivias ← stateless_cmts_or_ws0
          let comma ← pAlt [
            (do let c ← ascii_char ',' .COMMA; pure (some c)),
            (do let _ ← pPeek (pChar ']'); pure none)]
          pure (Sum.inl (entry, trivias, comma))),
        (do
          let trivias ← stateless_cmts_or_ws1
          pure (Sum.inr trivias))])
      pure (nodeG .FLOW_SEQ_ENTRIES (flowEntriesFold items))) i
  seqEntry := do
    let child ← pAlt [
      (do
        let f ← prev.fl
        let _ ← pPeek (pNot (do
          let _ ← stateless_cmts_or_ws0
          let _ ← pChar ':'
          pure ()))
        pure f),
      prev.fpair]
    pure (nodeG .FLOW_SEQ_ENTRY [child])
  fmap := do
    let l ← ascii_char '{' .L_BRACE
    let lead ← stateless_cmts_or_ws0
    let entries ← pSetState flow_collection_state prev.fmapEntries
    let r ← ascii_char '}' .R_BRACE
    pure (nodeG .FLOW_MAP ([l] ++ lead ++ [entries, r]))
  fmapEntries := fun i =>
    (do
      let items ← pRepeat0 (i.rem.length + 1) (pAlt [
        (do
          let entry ← prev.fmapEntry
          let trivias ← stateless_cmts_or_ws0
          let comma ← pAlt [
            (do let c ← ascii_char ',' .COMMA; pure (some c)),
            (do let _ ← pPeek (pChar '}'); pure none)]
          pure (Sum.inl (entry, trivias, comma))),
        (do
          let trivias ← stateless_cmts_or_ws1
          pure (Sum.inr trivias))])
      pure (nodeG .FLOW_MAP_ENTRIES (flowEntriesFold items))) i
  fmapEntry := pAlt [
    (do
      let key ← pOpt (do
        let k ← prev.entryKey
        let trivias ← stateless_cmts_or_ws0
        pure (k, trivias))
      let colon ← ascii_char ':' .COLON
      let value ← pOpt (do
        let trivias ← stateless_cmts_or_ws0
        let f ← prev.fl
        pure (trivias, f))
      pure (nodeG .FLOW_MAP_ENTRY
        ((match key with
          | some (k, trivias) => k :: trivias
          | none => []) ++ [colon] ++
         (match value with
          | some (trivias, f) => trivias ++ [nodeG .FLOW_MAP_VALUE [f]]
          | none => [])))),
    (do
      let k ← prev.entryKey
      pure (nodeG .FLOW_MAP_ENTRY [k]))]
  fpair := do
    let key ← pOpt (pDispatch2 (fun a b =>
      if a = '?' && (b = ' ' || b = '\t' || b = '\n' || b = '\r') then
        prev.entryKey
      else
        pSetState (fun st => { st with bfCtx := .FlowKey }) prev.entryKey))
    let trivias_before_colon ← stateless_cmts_or_ws0
    let colon ← ascii_char ':' .COLON
    let value ← pOpt (do
      let trivias ← stateless_cmts_or_ws0
      let f ← prev.fl
      pure (trivias, f))
    pure (nodeG .FLOW_PAIR
      ((match key with | some k => [k] | none => []) ++
       trivias_before_colon ++ [colon] ++
       (match value with
        | some (trivias, f) => trivias ++ [nodeG .FLOW_MAP_VALUE [f]]
        | none => [])))
  entryKey := pAlt [
    (do
      let f ← prev.fl
      pure (nodeG .FLOW_MAP_KEY [f])),
    (do
      let q ← ascii_char '?' .QUESTION_MARK
      let key ← pOpt (do
        let trivias ← stateless_cmts_or_ws1
        let f ← prev.fl
        pure (trivias, f))
      pure (nodeG .FLOW_MAP_KEY
        (q :: (match key with
               | some (trivias, f) => trivias ++ [f]
               | none => []))))]
  content := pDispatch (fun c =>
    if c = '"' then double_qouted_scalar
    else if c = '\'' then single_qouted_scalar
    else if c = '[' then prev.seq
    else if c = '{' then prev.fmap
    else plain_scalar)
  fl := pDispatch (fun c =>
    if c = '*' then do
      let a ← aliasP
      pure (nodeG .FLOW [a])
    else if c = '&' || c = '!' then do
      let props ← properties
      let content ← pOpt (do
        let trivias ← stateless_separate
        let fc ← prev.content
        pure (trivias, fc))
      pure (nodeG .FLOW
        (props :: (match content with
                   | some (trivias, fc) => trivias ++ [fc]
                   | none => [])))
    else do
      let fc ← prev.content
      pure (nodeG .FLOW [fc]))

/-- Fueled fixpoint of the flow family, via `Nat.rec` for cheap kernel
evaluation. -/
def flowFns (fuel : Nat) : FlowFns :=
  Nat.rec flowFnsZero (fun _ prev => flowFnsStep prev) fuel

/-- `flow_sequence`. -/
def flow_sequence (fuel : Nat) : PParser Green := (flowFns fuel).seq

/-- `flow_sequence_entries`. -/
def flow_sequence_entries (fuel : Nat) : PParser Green := (flowFns fuel).seqEntries

/-- `flow_sequence_entry`. -/
def flow_sequence_entry (fuel : Nat) : PParser Green := (flowFns fuel).seqEntry

/-- `flow_map`. -/
def flow_map (fuel : Nat) : PParser Green := (flowFns fuel).fmap

/-- `flow_map_entries`. -/
def flow_map_entries (fuel : Nat) : PParser Green := (flowFns fuel).fmapEntries

/-- `flow_map_entry`. -/
def flow_map_entry (fuel : Nat) : PParser Green := (flowFns fuel).fmapEntry

/-- `flow_pair`. -/
def flow_pair (fuel : Nat) : PParser Green := (flowFns fuel).fpair

/-- `flow_map_entry_key`. -/
def flow_map_entry_key (fuel : Nat) : PParser Green := (flowFns fuel).entryKey

/-- `flow_content`. -/
def flow_content (fuel : Nat) : PParser Green := (flowFns fuel).content

/-- `flow`. -/
def flow (fuel : Nat) : PParser Green := (flowFns fuel).fl


/-- `space_before_block_compact_collection`. -/
def space_before_block_compact_collection : PParser Green := fun i =>
  match pWithRecognized space i with
  | .ok (sp, text) i2 =>
    .ok sp ⟨i2.rem, { i2.st with
      prevIndent := some i2.st.indent,
      indent := i2.st.indent + text.length + 1 }⟩
  | .bt st => .bt st
  | .cut st => .cut st

/-- `block_map_implicit_key`. -/
def block_map_implicit_key (fuel : Nat) : PParser Green := do
  let f ← pSetState (fun st => { st with bfCtx := .BlockKey }) (flow fuel)
  pure (nodeG .BLOCK_MAP_KEY [f])

/-- The eight mutually recursive block-family productions, at one fuel
level.  `compact` is `block_compact_collection`. -/
structure BlockFns where
  bseq : PParser Green
  bseqEntry : PParser Green
  compact : PParser (Option (List Green × Green))
  bmap : PParser Green
  bmapExplicitEntry : PParser Green
  bmapExplicitKey : PParser Green
  bmapImplicitEntry : PParser Green
  blk : PParser Green

/-- Out of fuel: every production fails (backtrack). -/
def blockFnsZero : BlockFns :=
  ⟨pFail, pFail, pFail, pFail, pFail, pFail, pFail, pFail⟩

/-- One unfolding of the mutual recursion; `flowP` and `implicitKey` are
`flow` and `block_map_implicit_key` at the next-smaller fuel.  Bodies
transcribe `src/yaml_parser/src/lib.rs`. -/
def blockFnsStep (flowP implicitKey : PParser Green) (prev : BlockFns) : BlockFns where
  bseq := fun i =>
    (do
      let first ← prev.bseqEntry
      let rest ← pRepeat0 (i.rem.length + 1) (do
        let trivias ← verify_indent cmts_or_ws1
        let entry ← prev.bseqEntry
        pure (trivias, entry))
      pure (nodeG .BLOCK_SEQ
        (first :: rest.foldr (fun (te : List Green × Green) acc =>
          te.1 ++ te.2 :: acc) []))) i
  bseqEntry := do
    let minus ← ascii_char '-' .MINUS
    let value ← pSetState
      (fun st => { st with bfCtx := .BlockIn, documentTop := false })
      (pAlt [
        prev.compact,
        (do
          let trivias ← track_indent (store_prev_indent cmts_or_ws1)
          let b ← prev.blk
          pure (some (trivias, b))),
        (do
          let _ ← pPeek (do
            let _ ← pOpt pSpace1
            let _ ← pOpt comment
            let _ ← pAlt [pLineEnding, (do let _ ← pEof; pure ([] : List Char))]
            pure ())
          pure none)])
    match value with
    | some (wsEls, v) => pure (nodeG .BLOCK_SEQ_ENTRY (minus :: wsEls ++ [v]))
    | none => pure (nodeG .BLOCK_SEQ_ENTRY [minus])
  compact := pSetState id (do
    let sp ← track_indent space_before_block_compact_collection
    let collection ← pAlt [prev.bseq, prev.bmap]
    pure (some ([sp], nodeG .BLOCK [collection])))
  bmap := fun i =>
    let indent := i.st.indent
    (do
      let first ← pAlt [prev.bmapImplicitEntry, prev.bmapExplicitEntry]
      let rest ← pRepeat0 (i.rem.length + 1) (do
        let trivias ← cmts_or_ws1
        let _ ← pVerifyState (fun st => st.indent == indent)
        let entry ← pAlt [prev.bmapImplicitEntry, prev.bmapExplicitEntry]
        pure (trivias, entry))
      pure (nodeG .BLOCK_MAP
        (first :: rest.foldr (fun (te : List Green × Green) acc =>
          te.1 ++ te.2 :: acc) []))) i
  bmapExplicitEntry := pSetState (fun st => { st with documentTop := false }) (do
    let key ← store_prev_indent prev.bmapExplicitKey
    let value ← pSetState (fun st => { st with bfCtx := .BlockOut }) (pOpt (do
      let trivias_before_colon ← cmts_or_ws1
      let colon ← ascii_char ':' .COLON
      let v ← pAlt [
        prev.compact,
        pOpt (do
          let trivias ← track_indent cmts_or_ws1
          let b ← prev.blk
          pure (trivias, b))]
      pure (trivias_before_colon, colon, v)))
    match value with
    | some (trivias_before_colon, colon, v) =>
      pure (nodeG .BLOCK_MAP_ENTRY
        (key :: trivias_before_colon ++ [colon] ++
         (match v with
          | some (trivias, b) => trivias ++ [nodeG .BLOCK_MAP_VALUE [b]]
          | none => [])))
    | none => pure (nodeG .BLOCK_MAP_ENTRY [key]))
  bmapExplicitKey := do
    let q ← ascii_char '?' .QUESTION_MARK
    let key ← pAlt [
      prev.compact,
      (do
        let trivias ← track_indent cmts_or_ws1
        let b ← pSetState (fun st => { st with bfCtx := .BlockOut }) prev.blk
        pure (some (trivias, b))),
      (do
        let _ ← pLineEnding
        pure none)]
    match key with
    | some (trivias, k) => pure (nodeG .BLOCK_MAP_KEY (q :: trivias ++ [k]))
    | none => pure (nodeG .BLOCK_MAP_KEY [q])
  bmapImplicitEntry := pSetState (fun st => { st with documentTop := false }) (do
    let key ← pOpt (do
      let k ← store_prev_indent implicitKey
      let sp ← pOpt space
      pure (k, sp))
    let colon ← ascii_char ':' .COLON
    let value ← pOpt (do
      let trivias ← track_indent cmts_or_ws1
      let b ← pSetState (fun st => { st with bfCtx := .BlockOut }) prev.blk
      pure (trivias, b))
    pure (nodeG .BLOCK_MAP_ENTRY
      ((match key with
        | some (k, sp) => k :: (match sp with | some s => [s] | none => [])
        | none => []) ++ [colon] ++
       (match value with
        | some (trivias, b) => trivias ++ [nodeG .BLOCK_MAP_VALUE [b]]
        | none => []))))
  blk := pAlt [
    (do
      let props ← pOpt (do
        let p ← properties
        let trivias ← track_indent cmts_or_ws1
        let _ ← pAlt [
          pVerifyState (fun st => st.lastWsHasNl),
          (do let _ ← pPeek (pOneOf (fun c => c = '|' || c = '>')); pure ())]
        pure (p, trivias))
      let b ← pAlt [
        (fun i =>
          (match i.st.bfCtx with
           | .BlockIn => require_deeper_indent prev.bseq
           | _ => do
             let _ ← pVerifyState (fun st =>
               match st.prevIndent with
               | some prev2 => decide (st.indent ≥ prev2)
               | none => false)
             prev.bseq) i),
        (fun i =>
          (match i.st.bfCtx with
           | .BlockOut => require_deeper_indent prev.bmap
           | _ => prev.bmap) i),
        block_scalar]
      pure (nodeG .BLOCK
        ((match props with
          | some (p, trivias) => p :: trivias
          | none => []) ++ [b]))),
    pSetState (fun st => { st with bfCtx := .FlowOut })
      (require_deeper_indent flowP),
    (do
      let p ← properties
      pure (nodeG .BLOCK [p]))]

/-- Fueled fixpoint of the block family via `Nat.rec`. -/
def blockFns (fuel : Nat) : BlockFns :=
  Nat.rec blockFnsZero
    (fun n prev => blockFnsStep (flow n) (block_map_implicit_key n) prev) fuel

/-- `block_sequence`. -/
def block_sequence (fuel : Nat) : PParser Green := (blockFns fuel).bseq

/-- `block_sequence_entry`. -/
def block_sequence_entry (fuel : Nat) : PParser Green := (blockFns fuel).bseqEntry

/-- `block_compact_collection`. -/
def block_compact_collection (fuel : Nat) : PParser (Option (List Green × Green)) :=
  (blockFns fuel).compact

/-- `block_map`. -/
def block_map (fuel : Nat) : PParser Green := (blockFns fuel).bmap

/-- `block_map_explicit_entry`. -/
def block_map_explicit_entry (fuel : Nat) : PParser Green :=
  (blockFns fuel).bmapExplicitEntry

/-- `block_map_explicit_key`. -/
def block_map_explicit_key (fuel : Nat) : PParser Green :=
  (blockFns fuel).bmapExplicitKey

/-- `block_map_implicit_entry`. -/
def block_map_implicit_entry (fuel : Nat) : PParser Green :=
  (blockFns fuel).bmapImplicitEntry

/-- `block`. -/
def block (fuel : Nat) : PParser Green := (blockFns fuel).blk


/-! ### Directives, documents, root (`src/yaml_parser/src/lib.rs`) -/

/-- `directives_end`. -/
def directives_end : PParser Green := do
  let text ← pLit ['-', '-', '-']
  let _ ← pPeek pMultispace1
  pure (tokG .DIRECTIVES_END text)

/-- `yaml_directive`. -/
def yaml_directive : PParser Green := do
  let name ← pLit ['Y', 'A', 'M', 'L']
  let sp ← space
  let version ← pRecognize (do
    let _ ← pDigit1
    let _ ← pChar '.'
    let _ ← pDigit1
    pure ())
  pure (nodeG .YAML_DIRECTIVE [tokG .DIRECTIVE_NAME name, sp, tokG .YAML_VERSION version])

/-- `tag_prefix` (named `tag_prefix_rule` to avoid a reserved suffix). -/
def tag_prefix_rule : PParser Green := do
  let text ← pRecognize (do
    let _ ← pOneOf (fun c => c = '!' || is_tag_char c)
    let _ ← pTakeWhileMin 0 is_url_char
    pure ())
  pure (tokG .TAG_PREFIX text)

/-- `tag_directive`. -/
def tag_directive : PParser Green := do
  let name ← pLit ['T', 'A', 'G']
  let sp1 ← space
  let handle ← tag_handle
  let sp2 ← space
  let pfx ← tag_prefix_rule
  pure (nodeG .TAG_DIRECTIVE [tokG .DIRECTIVE_NAME name, sp1, handle, sp2, pfx])

/-- `reserved_directive`. -/
def reserved_directive : PParser Green := do
  let name ← pTakeTill1 isAsciiWs
  let sp ← space
  let param ← (fun i => pRecognize (pRepeat0 (i.rem.length + 1) (pAlt [
    (do let _ ← pTakeTill1 isAsciiWs; pure ()),
    (do
      let _ ← pSpace1
      let _ ← pPeek (pNoneOf (fun c => c = '#'))
      pure ())])) i)
  pure (nodeG .RESERVED_DIRECTIVE
    [tokG .DIRECTIVE_NAME name, sp, tokG .DIRECTIVE_PARAM param])

/-- `directive`. -/
def directive : PParser Green := do
  let percent ← ascii_char '%' .PERCENT
  let d ← pCutErr (pAlt [yaml_directive, tag_directive, reserved_directive])
  pure (nodeG .DIRECTIVE [percent, d])

/-- `document_end`: also records that the document was finished. -/
def document_end : PParser Green := fun i =>
  match pLit ['.', '.', '.'] i with
  | .ok text i2 =>
    .ok (tokG .DOCUMENT_END text) ⟨i2.rem, { i2.st with prevDocumentFinished := true }⟩
  | .bt st => .bt st
  | .cut st => .cut st

/-- `top_level_block`. -/
def top_level_block (fuel : Nat) : PParser Green := fun i =>
  match (do
      let _ ← pNot (pLit ['.', '.', '.'])
      pSetState (fun st => { st with bfCtx := .BlockIn, documentTop := true })
        (block fuel)) i with
  | .ok v i2 => .ok v ⟨i2.rem, { i2.st with prevDocumentFinished := false }⟩
  | .bt st => .bt st
  | .cut st => .cut st

/-- `document`. -/
def document (fuel : Nat) : PParser Green := fun i =>
  let prev_document_finished := i.st.prevDocumentFinished
  pAlt [
    (do
      let directives ← (fun i2 => pRepeat1 (i2.rem.length + 1) (do
        let d ← directive
        let trivias ← cmts_or_ws0
        pure (d, trivias)) i2)
      let dirEnd ← directives_end
      let blk ← pOpt (do
        let trivias ← cmts_or_ws0
        let b ← store_prev_indent (top_level_block fuel)
        pure (trivias, b))
      let docEnd ← pOpt (do
        let trivias ← cmts_or_ws1
        let e ← document_end
        pure (trivias, e))
      pure (nodeG .DOCUMENT
        (directives.foldr (fun (dt : Green × List Green) acc =>
          dt.1 :: dt.2 ++ acc) [] ++ [dirEnd] ++
         (match blk with
          | some (trivias, b) => trivias ++ [b]
          | none => []) ++
         (match docEnd with
          | some (trivias, e) => trivias ++ [e]
          | none => [])))),
    (do
      let e ← document_end
      pure (nodeG .DOCUMENT [e])),
    (do
      let dirEnd ← pCutErr (pVerify (pOpt (do
          let e ← directives_end
          let trivias ← cmts_or_ws0
          pure (e, trivias)))
        (fun end? => end?.isSome || prev_document_finished))
      let blk ← store_prev_indent (top_level_block fuel)
      let docEnd ← pOpt (do
        let trivias ← cmts_or_ws1
        let e ← document_end
        pure (trivias, e))
      pure (nodeG .DOCUMENT
        ((match dirEnd with
          | some (e, trivias) => e :: trivias
          | none => []) ++ [blk] ++
         (match docEnd with
          | some (trivias, e) => trivias ++ [e]
          | none => [])))),
    (do
      let dirEnd ← directives_end
      let docEnd ← pOpt (do
        let trivias ← cmts_or_ws1
        let e ← document_end
        pure (trivias, e))
      pure (nodeG .DOCUMENT
        (dirEnd :: (match docEnd with
                    | some (trivias, e) => trivias ++ [e]
                    | none => []))))] i

/-- `root`. -/
def root (fuel : Nat) : PParser Green := fun i =>
  match pRepeatTill (i.rem.length + 1) (pAlt [cmt_or_ws, document fuel]) pEof i with
  | .ok (children, _) i2 => .ok (nodeG .ROOT children) i2
  | .bt st => .bt st
  | .cut st => .cut st

/-- `parse` (`src/yaml_parser/src/lib.rs` lines 1211-1227), with recursion
fuel amply above the nesting any input of this length can produce. -/
def parse (code : List Char) : Option Green :=
  let code := code.dropWhile (fun c => c = '\uFEFF')
  let base_indent := (detect_base_indent code).getD 0
  let st : RState :=
    { prevIndent := none
      indent := base_indent
      trackedIndents := shl1 base_indent
      lastWsHasNl := false
      bfCtx := .BlockIn
      documentTop := true
      prevDocumentFinished := true }
  match root (16 * (code.length + 2)) ⟨code, st⟩ with
  | .ok v i2 => if i2.rem.isEmpty then some v else none
  | .bt _ => none
  | .cut _ => none

/-! ## Token concatenation (losslessness) -/

mutual

/-- Depth-first concatenation of all token texts of a green element. -/
def greenText : Green → List Char
  | .token _ t => t
  | .node _ cs => greensText cs

/-- Depth-first concatenation over a list of green elements. -/
def greensText : List Green → List Char
  | [] => []
  | g :: gs => greenText g ++ greensText gs

end

/-! ## Losslessness framework

`Consumes p tx` says: whenever `p` succeeds, the consumed prefix of the
input is exactly `tx` of the produced value.  `Advances p` merely says
the remaining input is a suffix of the original. -/

/-- Text function for `Option` results (used with `pOpt` / `pCond`). -/
def optText {α : Type} (tx : α → List Char) : Option α → List Char
  | some a => tx a
  | none => []

def Consumes {α : Type} (p : PParser α) (tx : α → List Char) : Prop :=
  ∀ i v i2, p i = .ok v i2 → i.rem = tx v ++ i2.rem

def Advances {α : Type} (p : PParser α) : Prop :=
  ∀ i v i2, p i = .ok v i2 → ∃ pre, i.rem = pre ++ i2.rem

/-- Text of one accumulated item of the flow-entries fold. -/
def flowItemText :
    Sum (Green × List Green × Option Green) (List Green) → List Char
  | Sum.inl etc2 => greenText etc2.1 ++ greensText etc2.2.1 ++ optText greenText etc2.2.2
  | Sum.inr ts => greensText ts

/-! ## Printer fragments (`src/pretty_yaml`)

The pretty printer builds a `tiny_pretty::Doc`; only the constructors
the formatter uses are modelled (the layout engine is an external crate
and is not needed for the claims below). -/

/-- The `Quotes` option (`src/pretty_yaml/src/config.rs`). -/
inductive Quotes where
  | PreferDouble | PreferSingle | ForceDouble | ForceSingle
  deriving DecidableEq, Repr

/-- The `tiny_pretty::Doc` constructors used by `printer.rs`. -/
inductive Doc where
  | nil
  | text (s : List Char)
  | space
  | hardLine
  | emptyLine
  | lineOrSpace
  | list (ds : List Doc)
  | group (d : Doc)
  | nest (n : Nat) (d : Doc)

/-- `SyntaxElement::kind` of a green element. -/
def Green.kind : Green → SyntaxKind
  | .token k _ => k
  | .node k _ => k

/-- Whether a green element is an interior node (not a token). -/
def Green.isNode : Green → Bool
  | .node _ _ => true
  | .token _ _ => false

/-- rowan `children_with_tokens()`: every child element of a node (a
token has none). -/
def Green.elements : Green → List Green
  | .token _ _ => []
  | .node _ cs => cs

/-- rowan `children()`: the node children only, in order. -/
def Green.nodeChildren (g : Green) : List Green :=
  g.elements.filter Green.isNode

/-- `ast.rs` `child::<N>()`: the first node child of the wanted kind. -/
def childNode (k : SyntaxKind) (g : Green) : Option Green :=
  g.nodeChildren.find? (fun c => decide (c.kind = k))

/-- `text.contains(['\n', '\r'])`. -/
def hasLineBreak (t : List Char) : Bool :=
  t.any (fun c => c = '\n' || c = '\r')

/-- Rust `str::replace("''", "'")`: scan left to right, replacing
non-overlapping occurrences of `''` by `'`. -/
def replaceDD : List Char → List Char
  | [] => []
  | [c] => [c]
  | c :: d :: rest =>
    if c = '\'' then
      if d = '\'' then '\'' :: replaceDD rest
      else c :: replaceDD (d :: rest)
    else c :: replaceDD (d :: rest)

/-- Rust `str::replace('\'', "''")`: every `'` becomes `''`. -/
def replaceSD : List Char → List Char
  | [] => []
  | c :: rest =>
    if c = '\'' then '\'' :: '\'' :: replaceSD rest else c :: replaceSD rest

/-- `format_quoted_scalar_line` (`src/pretty_yaml/src/printer.rs` lines
1224-1230): the quote rewrite applied to one line of a quoted scalar. -/
def format_quoted_scalar_line (s : List Char) : Option Quotes → List Char
  | some .ForceDouble => replaceDD s
  | some .ForceSingle => replaceSD s
  | some .PreferDouble => s
  | some .PreferSingle => s
  | none => s

/-- Quote selection for a DOUBLE-quoted source scalar (`Flow::doc`,
`src/pretty_yaml/src/printer.rs` lines 335-357): given the text between
the quotes and the `quotes` option, the `quotes_option` passed on to
`format_quoted_scalar` and the quote character emitted on both sides. -/
def double_quoted_selection (text : List Char) (q : Quotes) :
    Option Quotes × List Char :=
  if text.any (fun c => c = '\\') then (none, ['"'])
  else
    match q with
    | .PreferSingle =>
      if text.any (fun c => c = '\'' || c = '"') then (none, ['"'])
      else (some .PreferSingle, ['\''])
    | .PreferDouble => (none, ['"'])
    | .ForceDouble => (none, ['"'])
    | .ForceSingle => (some .ForceSingle, ['\''])

/-- Quote selection for a SINGLE-quoted source scalar (`Flow::doc`,
`src/pretty_yaml/src/printer.rs` lines 358-380). -/
def single_quoted_selection (text : List Char) (q : Quotes) :
    Option Quotes × List Char :=
  if text.any (fun c => c = '\\' || c = '"') then (none, ['\''])
  else
    match q with
    | .PreferDouble =>
      if text.any (fun c => c = '\'' || c = '"') then (none, ['\''])
      else (some .PreferDouble, ['"'])
    | .PreferSingle => (none, ['\''])
    | .ForceSingle => (none, ['\''])
    | .ForceDouble => (some .ForceDouble, ['"'])

/-- `can_omit_question_mark` (`src/pretty_yaml/src/printer.rs` lines
1232-1279).  The key's place in the red tree is given by its parent's
kind and element list (`none` for a key at the root) and the key's index
among those elements; `siblings_with_tokens(Direction::Next)` is the
element list from the key's index on, and `.skip(1)` drops the key
itself. -/
def can_omit_question_mark (parent : Option (SyntaxKind × List Green))
    (idx : Nat) (key : Green) : Bool :=
  (match parent with
   | some pd =>
     decide (pd.1 = .FLOW_MAP_ENTRY) ||
       (Green.node pd.1 pd.2).nodeChildren.any (fun child =>
         decide (child.kind = .FLOW_MAP_VALUE) ||
           decide (child.kind = .BLOCK_MAP_VALUE))
   | none => false) &&
  (! key.elements.any (fun e => decide (e.kind = .COMMENT)) &&
   ((((match parent with
       | some pd => pd.2.drop (idx + 1)
       | none => []) : List Green).takeWhile (fun e =>
         decide (e.kind = .WHITESPACE) || decide (e.kind = .COMMENT))).all
      (fun e => decide (e.kind ≠ .COMMENT)) &&
    (match key.nodeChildren.find? (fun c => decide (c.kind = .FLOW)) with
     | some flow => flow.elements.any (fun e =>
         match e with
         | .token tk text =>
           (decide (tk = .DOUBLE_QUOTED_SCALAR) ||
            decide (tk = .SINGLE_QUOTED_SCALAR) ||
            decide (tk = .PLAIN_SCALAR)) && ! hasLineBreak text
         | .node nk _ => decide (nk = .ALIAS))
     | none => false)))

/-- First conjunct of the omission test, as the code has it: the parent
is a flow-map entry, or some node child of the parent is a flow- or
block-map value. -/
def qmContextAllowsOmission (parent : Option (SyntaxKind × List Green)) : Bool :=
  match parent with
  | some pd =>
    decide (pd.1 = .FLOW_MAP_ENTRY) ||
      (Green.node pd.1 pd.2).nodeChildren.any (fun child =>
        decide (child.kind = .FLOW_MAP_VALUE) ||
          decide (child.kind = .BLOCK_MAP_VALUE))
  | none => false

/-- Second conjunct: the key holds no comment token. -/
def qmKeyCommentFree (key : Green) : Bool :=
  ! key.elements.any (fun e => decide (e.kind = .COMMENT))

/-- Third conjunct: no comment between the key and the colon (among the
whitespace/comment elements right after the key). -/
def qmNoCommentBeforeColon (parent : Option (SyntaxKind × List Green))
    (idx : Nat) : Bool :=
  ((((match parent with
      | some pd => pd.2.drop (idx + 1)
      | none => []) : List Green).takeWhile (fun e =>
        decide (e.kind = .WHITESPACE) || decide (e.kind = .COMMENT))).all
     (fun e => decide (e.kind ≠ .COMMENT)))

/-- Last conjunct as the code has it (this is where the code and the
spec's sentence part ways): the key's `FLOW` child CONTAINS a flow
scalar token without a line break, or an alias node. -/
def qmKeyFlowHasInlineScalarOrAlias (key : Green) : Bool :=
  match key.nodeChildren.find? (fun c => decide (c.kind = .FLOW)) with
  | some flow => flow.elements.any (fun e =>
      match e with
      | .token tk text =>
        (decide (tk = .DOUBLE_QUOTED_SCALAR) ||
         decide (tk = .SINGLE_QUOTED_SCALAR) ||
         decide (tk = .PLAIN_SCALAR)) && ! hasLineBreak text
      | .node nk _ => decide (nk = .ALIAS))
  | none => false

/-- The omission condition with the last conjunct as the code computes
it: the first three conjuncts of the spec's sentence, then
`qmKeyFlowHasInlineScalarOrAlias`. -/
def can_omit_question_mark_amended (parent : Option (SyntaxKind × List Green))
    (idx : Nat) (key : Green) : Bool :=
  qmContextAllowsOmission parent &&
  (qmKeyCommentFree key &&
   (qmNoCommentBeforeColon parent idx &&
    qmKeyFlowHasInlineScalarOrAlias key))

/-- The omission condition as the spec's sentence states it.  Modelled
from the spec: the last two conjuncts are "no flow scalar inside the key
contains a line break" and "no alias appears inside the key" (scoped,
like the code's traversal, to the key's `FLOW` child's elements). -/
def can_omit_question_mark_spec (parent : Option (SyntaxKind × List Green))
    (idx : Nat) (key : Green) : Bool :=
  qmContextAllowsOmission parent &&
  (qmKeyCommentFree key &&
   (qmNoCommentBeforeColon parent idx &&
    ((match key.nodeChildren.find? (fun c => decide (c.kind = .FLOW)) with
      | some flow => flow.elements.all (fun e =>
          match e with
          | .token tk text =>
            ! ((decide (tk = .DOUBLE_QUOTED_SCALAR) ||
                decide (tk = .SINGLE_QUOTED_SCALAR) ||
                decide (tk = .PLAIN_SCALAR)) && hasLineBreak text)
          | .node _ _ => true)
      | none => true) &&
     (match key.nodeChildren.find? (fun c => decide (c.kind = .FLOW)) with
      | some flow => flow.elements.all (fun e => decide (e.kind ≠ .ALIAS))
      | none => true))))

/-- `FlowMap::doc` (`src/pretty_yaml/src/printer.rs` lines 421-440).
`fmtEntries` abstracts
`FlowCollectionFormatter::flow_map(..).format(entries.doc(ctx))` — the
branch where `brace_spacing` and every other option enters; the guard
and the `"{}"` short-cut are the code's. -/
def flow_map_doc (fm : Green) (fmtEntries : Green → Doc) : Doc :=
  if ((match childNode .FLOW_MAP_ENTRIES fm with
       | some entries => decide (entries.elements.length = 0)
       | none => false) &&
      fm.elements.all (fun e => decide (e.kind ≠ .COMMENT)) : Bool) then
    Doc.text ['\x7b', '\x7d']
  else
    match childNode .FLOW_MAP_ENTRIES fm with
    | some entries => fmtEntries entries
    | none => Doc.nil

/-- `FlowSeq::doc` (`src/pretty_yaml/src/printer.rs` lines 475-494),
with `fmtEntries` abstracting the formatted-entries branch. -/
def flow_seq_doc (sq : Green) (fmtEntries : Green → Doc) : Doc :=
  if ((match childNode .FLOW_SEQ_ENTRIES sq with
       | some entries => decide (entries.elements.length = 0)
       | none => false) &&
      sq.elements.all (fun e => decide (e.kind ≠ .COMMENT)) : Bool) then
    Doc.text ['[', ']']
  else
    match childNode .FLOW_SEQ_ENTRIES sq with
    | some entries => fmtEntries entries
    | none => Doc.nil

/-! ## Concrete fixtures used by the claim theorems -/

/-- The parser state `parse` (lines 1211-1227) builds for an input whose
first contentful character is at column 0: `detect_base_indent = 0` and
`tracked_indents = 1 << 0 = 1`. -/
def initialState : RState :=
  { prevIndent := none, indent := 0, trackedIndents := 1, lastWsHasNl := false,
    bfCtx := .BlockIn, documentTop := true, prevDocumentFinished := true }

/-- The state in force when `block_map_explicit_key` starts on the input
`"?\n"` under `parse`: `document`'s third branch wraps
`top_level_block` in `StorePrevIndent` (so `prev_indent = some 0`),
`top_level_block` sets `bf_ctx := BlockIn` and `document_top := true`,
and `block_map_explicit_entry` clears `document_top` and stores
`prev_indent` again before running the key parser. -/
def stExplicitKey : RState :=
  { prevIndent := some 0, indent := 0, trackedIndents := 1, lastWsHasNl := false,
    bfCtx := .BlockIn, documentTop := false, prevDocumentFinished := true }

/-- A state for a block scalar whose header starts at column 0 inside a
block collection (`bf_ctx = BlockOut`, below the document top). -/
def stBlockHeader : RState :=
  { prevIndent := none, indent := 0, trackedIndents := 1, lastWsHasNl := false,
    bfCtx := .BlockOut, documentTop := false, prevDocumentFinished := true }

/-- The `BLOCK_MAP_KEY` subtree `parse` produces for the input
`"? *a\n: b\n"`: an explicit key whose content is an alias and nothing
else. -/
def c4Key : Green :=
  nodeG .BLOCK_MAP_KEY [tokG .QUESTION_MARK ['?'], tokG .WHITESPACE [' '],
    nodeG .FLOW [nodeG .ALIAS [tokG .ASTERISK ['*'], tokG .ANCHOR_NAME ['a']]]]

/-- The element list of that key's parent `BLOCK_MAP_ENTRY` in the same
tree: the key is element 0 and a `BLOCK_MAP_VALUE` sibling follows. -/
def c4ParentElems : List Green :=
  [c4Key, tokG .WHITESPACE ['\n'], tokG .COLON [':'], tokG .WHITESPACE [' '],
   nodeG .BLOCK_MAP_VALUE [nodeG .FLOW [tokG .PLAIN_SCALAR ['b']]]]

/-- The text between the quotes of the single-quoted scalar written
`'it''s'` (two literal apostrophes: the escaped form of one). -/
def c5Content : List Char := ['i', 't', '\'', '\'', 's']

theorem greensText_append (a b : List Green) :
    greensText (a ++ b) = greensText a ++ greensText b := by
  induction a with
  | nil => rfl
  | cons g gs ih => simp [greensText, ih]

theorem greenText_token (k : SyntaxKind) (t : List Char) :
    greenText (tokG k t) = t := rfl

theorem greenText_node (k : SyntaxKind) (cs : List Green) :
    greenText (nodeG k cs) = greensText cs := rfl

theorem Consumes.advances {α : Type} {p : PParser α} {tx : α → List Char}
    (h : Consumes p tx) : Advances p :=
  fun i v i2 hok => ⟨tx v, h i v i2 hok⟩

theorem bind_ok {α β : Type} {p : PParser α} {f : α → PParser β}
    {i : PInput} {v : β} {i2 : PInput}
    (h : (p >>= f) i = .ok v i2) :
    ∃ a im, p i = .ok a im ∧ f a im = .ok v i2 := by
  have h2 : (match p i with
             | .ok a im => f a im
             | .bt st => .bt st
             | .cut st => .cut st) = .ok v i2 := h
  cases hp : p i with
  | ok a im => exact ⟨a, im, rfl, by rw [hp] at h2; exact h2⟩
  | bt st => rw [hp] at h2; cases h2
  | cut st => rw [hp] at h2; cases h2

theorem pure_ok {α : Type} {v w : α} {i i2 : PInput}
    (h : (pure v : PParser α) i = .ok w i2) : w = v ∧ i2 = i := by
  cases h; exact ⟨rfl, rfl⟩

theorem consumes_pure {α : Type} (v : α) :
    Consumes (pure v : PParser α) (fun _ => []) := by
  intro i w i2 h
  obtain ⟨rfl, rfl⟩ := pure_ok h
  rfl

theorem consumes_bind {α β : Type} {p : PParser α} {f : α → PParser β}
    {txa : α → List Char} {txb : α → β → List Char} {tx : β → List Char}
    (hp : Consumes p txa) (hf : ∀ a, Consumes (f a) (txb a))
    (hagree : ∀ a b, txa a ++ txb a b = tx b) :
    Consumes (p >>= f) tx := by
  intro i v i2 h
  obtain ⟨a, im, h1, h2⟩ := bind_ok h
  rw [hp i a im h1, hf a im v i2 h2, ← List.append_assoc, hagree]

theorem advances_bind {α β : Type} {p : PParser α} {f : α → PParser β}
    (hp : Advances p) (hf : ∀ a, Advances (f a)) :
    Advances (p >>= f) := by
  intro i v i2 h
  obtain ⟨a, im, h1, h2⟩ := bind_ok h
  obtain ⟨pre1, e1⟩ := hp i a im h1
  obtain ⟨pre2, e2⟩ := hf a im v i2 h2
  exact ⟨pre1 ++ pre2, by rw [e1, e2, List.append_assoc]⟩

theorem advances_pure {α : Type} (v : α) : Advances (pure v : PParser α) :=
  (consumes_pure v).advances

theorem consumes_pChar (c : Char) : Consumes (pChar c) (fun _ => [c]) := by
  intro i v i2 h
  unfold pChar at h
  match e : i.rem with
  | [] => rw [e] at h; cases h
  | d :: rest =>
    rw [e] at h
    by_cases hd : d = c
    · simp only [hd, if_pos rfl] at h
      cases h
      simp [hd]
    · simp only [if_neg hd] at h; cases h

theorem list_prefix_append_drop {s l : List Char} (h : s.isPrefixOf l) :
    l = s ++ l.drop s.length := by
  obtain ⟨t, rfl⟩ := List.isPrefixOf_iff_prefix.mp h
  simp

theorem consumes_pLit (s : List Char) : Consumes (pLit s) (fun t => t) := by
  intro i v i2 h
  unfold pLit at h
  by_cases hp : s.isPrefixOf i.rem
  · simp only [hp, if_pos] at h
    cases h
    exact list_prefix_append_drop hp
  · simp only [hp] at h; cases h

theorem consumes_pOneOf (f : Char → Bool) :
    Consumes (pOneOf f) (fun ch => [ch]) := by
  intro i v i2 h
  unfold pOneOf at h
  match e : i.rem with
  | [] => rw [e] at h; cases h
  | d :: rest =>
    rw [e] at h
    by_cases hd : f d
    · simp only [hd, if_pos] at h; cases h; rfl
    · simp only [hd] at h; cases h

theorem consumes_pNoneOf (f : Char → Bool) :
    Consumes (pNoneOf f) (fun ch => [ch]) :=
  consumes_pOneOf _

theorem consumes_pAny : Consumes pAny (fun ch => [ch]) := by
  intro i v i2 h
  unfold pAny at h
  match e : i.rem with
  | [] => rw [e] at h; cases h
  | d :: rest => rw [e] at h; cases h; rfl

theorem takeWhile_append_drop (f : Char → Bool) (l : List Char) :
    l = l.takeWhile f ++ l.drop (l.takeWhile f).length := by
  induction l with
  | nil => rfl
  | cons c cs ih =>
    by_cases hc : f c
    · simp [List.takeWhile, hc]
      exact ih
    · simp [List.takeWhile, hc]

theorem consumes_pTakeWhileMin (min : Nat) (f : Char → Bool) :
    Consumes (pTakeWhileMin min f) (fun t => t) := by
  intro i v i2 h
  unfold pTakeWhileMin at h
  by_cases hlen : (i.rem.takeWhile f).length < min
  · simp only [hlen, if_pos] at h; cases h
  · simp only [hlen, if_neg] at h
    cases h
    exact takeWhile_append_drop f i.rem

theorem consumes_pTakeTill1 (f : Char → Bool) :
    Consumes (pTakeTill1 f) (fun t => t) :=
  consumes_pTakeWhileMin _ _

theorem consumes_pEof : Consumes pEof (fun _ => []) := by
  intro i v i2 h
  unfold pEof at h
  match e : i.rem with
  | [] => rw [e] at h; cases h; simp [e]
  | d :: rest => rw [e] at h; cases h

theorem consumes_pOpt {α : Type} {p : PParser α} {tx : α → List Char}
    (hp : Consumes p tx) :
    Consumes (pOpt p) (optText tx) := by
  intro i v i2 h
  unfold pOpt at h
  cases e : p i with
  | ok a im => rw [e] at h; cases h; exact hp i a i2 e
  | bt st => rw [e] at h; cases h; rfl
  | cut st => rw [e] at h; cases h

theorem consumes_pPeek {α : Type} (p : PParser α) :
    Consumes (pPeek p) (fun _ => []) := by
  intro i v i2 h
  unfold pPeek at h
  cases e : p i with
  | ok a im => rw [e] at h; cases h; rfl
  | bt st => rw [e] at h; cases h
  | cut st => rw [e] at h; cases h

theorem consumes_pNot {α : Type} (p : PParser α) :
    Consumes (pNot p) (fun _ => []) := by
  intro i v i2 h
  unfold pNot at h
  cases e : p i with
  | ok a im => rw [e] at h; cases h
  | bt st => rw [e] at h; cases h; rfl
  | cut st => rw [e] at h; cases h

theorem consumes_pCutErr {α : Type} {p : PParser α} {tx : α → List Char}
    (hp : Consumes p tx) : Consumes (pCutErr p) tx := by
  intro i v i2 h
  unfold pCutErr at h
  cases e : p i with
  | ok a im => rw [e] at h; cases h; exact hp i v i2 e
  | bt st => rw [e] at h; cases h
  | cut st => rw [e] at h; cases h

theorem consumes_pAlt {α : Type} {ps : List (PParser α)} {tx : α → List Char}
    (hps : ∀ p ∈ ps, Consumes p tx) : Consumes (pAlt ps) tx := by
  induction ps with
  | nil => intro i v i2 h; cases h
  | cons p rest ih =>
    intro i v i2 h
    unfold pAlt at h
    cases e : p i with
    | ok a im =>
      rw [e] at h; cases h
      exact hps p (by simp) i v i2 e
    | bt st =>
      rw [e] at h
      have h3 : pAlt rest ⟨i.rem, st⟩ = .ok v i2 := h
      exact ih (fun q hq => hps q (by simp [hq])) ⟨i.rem, st⟩ v i2 h3
    | cut st => rw [e] at h; cases h

theorem consumes_pAlt_nil {α : Type} {tx : α → List Char} :
    Consumes (pAlt ([] : List (PParser α))) tx := by
  intro i v i2 h; cases h

theorem consumes_pAlt_cons {α : Type} {p : PParser α} {ps : List (PParser α)}
    {tx : α → List Char} (h1 : Consumes p tx) (h2 : Consumes (pAlt ps) tx) :
    Consumes (pAlt (p :: ps)) tx := by
  intro i v i2 h
  unfold pAlt at h
  cases e : p i with
  | ok a im => rw [e] at h; cases h; exact h1 _ _ _ e
  | bt st =>
    rw [e] at h
    have h3 : pAlt ps ⟨i.rem, st⟩ = .ok v i2 := h
    exact h2 ⟨i.rem, st⟩ v i2 h3
  | cut st => rw [e] at h; cases h

theorem advances_pAlt_nil {α : Type} :
    Advances (pAlt ([] : List (PParser α))) := by
  intro i v i2 h; cases h

theorem advances_pAlt_cons {α : Type} {p : PParser α} {ps : List (PParser α)}
    (h1 : Advances p) (h2 : Advances (pAlt ps)) :
    Advances (pAlt (p :: ps)) := by
  intro i v i2 h
  unfold pAlt at h
  cases e : p i with
  | ok a im => rw [e] at h; cases h; exact h1 _ _ _ e
  | bt st =>
    rw [e] at h
    have h3 : pAlt ps ⟨i.rem, st⟩ = .ok v i2 := h
    exact h2 ⟨i.rem, st⟩ v i2 h3
  | cut st => rw [e] at h; cases h

theorem consumes_pRepeat0 {α : Type} {p : PParser α} {tx : α → List Char}
    (hp : Consumes p tx) (fuel : Nat) :
    Consumes (pRepeat0 fuel p) (fun vs => (vs.map tx).flatten) := by
  induction fuel with
  | zero =>
    intro i v i2 h
    unfold pRepeat0 at h
    cases h; rfl
  | succ n ih =>
    intro i v i2 h
    unfold pRepeat0 at h
    cases e : p i with
    | bt st => rw [e] at h; cases h; rfl
    | cut st => rw [e] at h; cases h
    | ok a im =>
      rw [e] at h
      by_cases hlen : im.rem.length = i.rem.length
      · simp only [hlen, if_pos] at h; cases h
      · simp only [hlen, if_neg] at h
        cases e2 : pRepeat0 n p im with
        | ok vs i3 =>
          rw [e2] at h; cases h
          rw [hp i a im e, ih im vs i2 e2]
          simp [List.append_assoc]
        | bt st => rw [e2] at h; cases h
        | cut st => rw [e2] at h; cases h

theorem consumes_pRepeat1 {α : Type} {p : PParser α} {tx : α → List Char}
    (hp : Consumes p tx) (fuel : Nat) :
    Consumes (pRepeat1 fuel p) (fun vs => (vs.map tx).flatten) := by
  intro i v i2 h
  unfold pRepeat1 at h
  obtain ⟨a, im, h1, h2⟩ := bind_ok h
  obtain ⟨vs, im2, h3, h4⟩ := bind_ok h2
  obtain ⟨hv, hi⟩ := pure_ok h4
  rw [hv, hi, hp i a im h1, consumes_pRepeat0 hp fuel im vs im2 h3]
  simp

theorem consumes_pRepeatTill {α β : Type} {p : PParser α} {term : PParser β}
    {tx : α → List Char} {txt : β → List Char}
    (hp : Consumes p tx) (ht : Consumes term txt) (fuel : Nat) :
    Consumes (pRepeatTill fuel p term)
      (fun vt => (vt.1.map tx).flatten ++ txt vt.2) := by
  induction fuel with
  | zero => intro i v i2 h; cases h
  | succ n ih =>
    intro i v i2 h
    unfold pRepeatTill at h
    cases e : term i with
    | ok b im =>
      rw [e] at h; cases h
      simpa using ht i b i2 e
    | cut st => rw [e] at h; cases h
    | bt st =>
      rw [e] at h
      dsimp only at h
      cases e2 : p ⟨i.rem, st⟩ with
      | bt st2 => rw [e2] at h; cases h
      | cut st2 => rw [e2] at h; cases h
      | ok a im =>
        rw [e2] at h
        by_cases hlen : im.rem.length = i.rem.length
        · simp only [hlen, if_pos] at h; cases h
        · simp only [hlen, if_neg] at h
          cases e3 : pRepeatTill n p term im with
          | ok vt i3 =>
            rw [e3] at h; cases h
            have h1 : i.rem = tx a ++ im.rem := hp ⟨i.rem, st⟩ a im e2
            rw [h1, ih im _ i2 e3]
            simp [List.append_assoc]
          | bt st2 => rw [e3] at h; cases h
          | cut st2 => rw [e3] at h; cases h

theorem consumes_pVerify {α : Type} {p : PParser α} {tx : α → List Char}
    (hp : Consumes p tx) (f : α → Bool) : Consumes (pVerify p f) tx := by
  intro i v i2 h
  unfold pVerify at h
  cases e : p i with
  | ok a im =>
    rw [e] at h
    by_cases hf : f a
    · simp only [hf, if_pos] at h; cases h; exact hp i v i2 e
    · simp only [hf] at h; cases h
  | bt st => rw [e] at h; cases h
  | cut st => rw [e] at h; cases h

theorem consumes_pVerifyMap {α β : Type} {p : PParser α} {txa : α → List Char}
    {f : α → Option β} {tx : β → List Char}
    (hp : Consumes p txa) (hagree : ∀ a b, f a = some b → txa a = tx b) :
    Consumes (pVerifyMap p f) tx := by
  intro i v i2 h
  unfold pVerifyMap at h
  cases e : p i with
  | ok a im =>
    rw [e] at h
    dsimp only at h
    cases e2 : f a with
    | some b =>
      rw [e2] at h; cases h
      rw [hp i a i2 e, hagree a v e2]
    | none => rw [e2] at h; cases h
  | bt st => rw [e] at h; cases h
  | cut st => rw [e] at h; cases h

theorem consumes_pCond {α : Type} {p : PParser α} {tx : α → List Char}
    (hp : Consumes p tx) (b : Bool) :
    Consumes (pCond b p) (optText tx) := by
  intro i v i2 h
  unfold pCond at h
  by_cases hb : b
  · simp only [hb, if_pos] at h
    cases e : p i with
    | ok a im => rw [e] at h; cases h; exact hp i a i2 e
    | bt st => rw [e] at h; cases h
    | cut st => rw [e] at h; cases h
  · simp only [hb] at h; cases h; rfl

theorem consumes_pRecognize {α : Type} {p : PParser α}
    (hp : Advances p) : Consumes (pRecognize p) (fun t => t) := by
  intro i v i2 h
  unfold pRecognize at h
  cases e : p i with
  | ok a im =>
    rw [e] at h; cases h
    obtain ⟨pre, hpre⟩ := hp i a i2 e
    rw [hpre]
    have hlen : (pre ++ i2.rem).length - i2.rem.length = pre.length := by
      simp
    rw [hlen, List.take_append_of_le_length (by simp), List.take_length]
  | bt st => rw [e] at h; cases h
  | cut st => rw [e] at h; cases h

theorem consumes_pWithRecognized {α : Type} {p : PParser α}
    (hp : Advances p) : Consumes (pWithRecognized p) (fun t => t.2) := by
  intro i v i2 h
  unfold pWithRecognized at h
  cases e : p i with
  | ok a im =>
    rw [e] at h; cases h
    obtain ⟨pre, hpre⟩ := hp i a i2 e
    rw [hpre]
    have hlen : (pre ++ i2.rem).length - i2.rem.length = pre.length := by
      simp
    rw [hlen, List.take_append_of_le_length (by simp), List.take_length]
  | bt st => rw [e] at h; cases h
  | cut st => rw [e] at h; cases h

theorem consumes_pSetState {α : Type} {p : PParser α} {tx : α → List Char}
    (hp : Consumes p tx) (f : RState → RState) :
    Consumes (pSetState f p) tx := by
  intro i v i2 h
  unfold pSetState at h
  cases e : p ⟨i.rem, f i.st⟩ with
  | ok a im => rw [e] at h; cases h; exact hp ⟨i.rem, f i.st⟩ v im e
  | bt st => rw [e] at h; cases h
  | cut st => rw [e] at h; cases h

theorem consumes_pVerifyState (f : RState → Bool) :
    Consumes (pVerifyState f) (fun _ => []) := by
  intro i v i2 h
  unfold pVerifyState at h
  by_cases hf : f i.st
  · simp only [hf, if_pos] at h; cases h; rfl
  · simp only [hf] at h; cases h

theorem consumes_pDispatch {α : Type} {f : Char → PParser α} {tx : α → List Char}
    (hf : ∀ c, Consumes (f c) tx) : Consumes (pDispatch f) tx := by
  intro i v i2 h
  unfold pDispatch at h
  match e : i.rem with
  | [] => rw [e] at h; cases h
  | c :: rest =>
    rw [e] at h
    have h2 := hf c i v i2 h
    rw [e] at h2
    exact h2

theorem consumes_pDispatch2 {α : Type} {f : Char → Char → PParser α}
    {tx : α → List Char} (hf : ∀ a b, Consumes (f a b) tx) :
    Consumes (pDispatch2 f) tx := by
  intro i v i2 h
  unfold pDispatch2 at h
  match e : i.rem with
  | [] => rw [e] at h; cases h
  | [c] => rw [e] at h; cases h
  | a :: b :: rest =>
    rw [e] at h
    have h2 := hf a b i v i2 h
    rw [e] at h2
    exact h2

theorem consumes_pFail {α : Type} (tx : α → List Char) :
    Consumes (pFail : PParser α) tx := by
  intro i v i2 h; cases h

theorem consumes_track_indent {α : Type} {p : PParser α} {tx : α → List Char}
    (hp : Consumes p tx) : Consumes (track_indent p) tx := by
  intro i v i2 h
  unfold track_indent at h
  cases e : p i with
  | ok a im => rw [e] at h; cases h; exact hp i v im e
  | bt st => rw [e] at h; cases h
  | cut st => rw [e] at h; cases h

theorem consumes_verify_indent {α : Type} {p : PParser α} {tx : α → List Char}
    (hp : Consumes p tx) : Consumes (verify_indent p) tx := by
  intro i v i2 h
  unfold verify_indent at h
  cases e : p i with
  | ok a im =>
    rw [e] at h
    dsimp only at h
    split at h
    · cases h; exact hp _ _ _ e
    · split at h
      · cases h
      · cases h
  | bt st => rw [e] at h; cases h
  | cut st => rw [e] at h; cases h

theorem consumes_store_prev_indent {α : Type} {p : PParser α} {tx : α → List Char}
    (hp : Consumes p tx) : Consumes (store_prev_indent p) tx := by
  intro i v i2 h
  unfold store_prev_indent at h
  cases e : p ⟨i.rem, { i.st with prevIndent := some i.st.indent }⟩ with
  | ok a im =>
    rw [e] at h; cases h
    exact hp ⟨i.rem, { i.st with prevIndent := some i.st.indent }⟩ v i2 e
  | bt st => rw [e] at h; cases h
  | cut st => rw [e] at h; cases h

theorem consumes_require_deeper_indent {α : Type} {p : PParser α}
    {tx : α → List Char} (hp : Consumes p tx) :
    Consumes (require_deeper_indent p) tx := by
  intro i v i2 h
  unfold require_deeper_indent at h
  by_cases hc : (! i.st.documentTop && i.st.lastWsHasNl &&
      (match i.st.prevIndent with
       | some prev => decide (prev ≥ i.st.indent)
       | none => false)) = true
  · rw [if_pos hc] at h; cases h
  · rw [if_neg hc] at h; exact hp i v i2 h

theorem advances_pAlt {α : Type} {ps : List (PParser α)}
    (hps : ∀ p ∈ ps, Advances p) : Advances (pAlt ps) := by
  induction ps with
  | nil => intro i v i2 h; cases h
  | cons p rest ih =>
    intro i v i2 h
    unfold pAlt at h
    cases e : p i with
    | ok a im => rw [e] at h; cases h; exact hps p (by simp) i v i2 e
    | bt st =>
      rw [e] at h
      have h3 : pAlt rest ⟨i.rem, st⟩ = .ok v i2 := h
      exact ih (fun q hq => hps q (by simp [hq])) ⟨i.rem, st⟩ v i2 h3
    | cut st => rw [e] at h; cases h

theorem advances_pRepeat0 {α : Type} {p : PParser α}
    (hp : Advances p) (fuel : Nat) : Advances (pRepeat0 fuel p) := by
  induction fuel with
  | zero => intro i v i2 h; cases h; exact ⟨[], rfl⟩
  | succ n ih =>
    intro i v i2 h
    unfold pRepeat0 at h
    cases e : p i with
    | bt st => rw [e] at h; cases h; exact ⟨[], rfl⟩
    | cut st => rw [e] at h; cases h
    | ok a im =>
      rw [e] at h
      by_cases hlen : im.rem.length = i.rem.length
      · simp only [hlen, if_pos] at h; cases h
      · simp only [hlen, if_neg] at h
        cases e2 : pRepeat0 n p im with
        | ok vs i3 =>
          rw [e2] at h; cases h
          obtain ⟨p1, e1⟩ := hp i a im e
          obtain ⟨p2, e3⟩ := ih im vs i2 e2
          exact ⟨p1 ++ p2, by rw [e1, e3, List.append_assoc]⟩
        | bt st => rw [e2] at h; cases h
        | cut st => rw [e2] at h; cases h

theorem advances_pVerify {α : Type} {p : PParser α} (hp : Advances p)
    (f : α → Bool) : Advances (pVerify p f) := by
  intro i v i2 h
  unfold pVerify at h
  cases e : p i with
  | ok a im =>
    rw [e] at h
    by_cases hf : f a
    · simp only [hf, if_pos] at h; cases h; exact hp i v i2 e
    · simp only [hf] at h; cases h
  | bt st => rw [e] at h; cases h
  | cut st => rw [e] at h; cases h

theorem advances_pVerifyMap {α β : Type} {p : PParser α} (hp : Advances p)
    (f : α → Option β) : Advances (pVerifyMap p f) := by
  intro i v i2 h
  unfold pVerifyMap at h
  cases e : p i with
  | ok a im =>
    rw [e] at h
    dsimp only at h
    cases e2 : f a with
    | some b => rw [e2] at h; cases h; exact hp i a i2 e
    | none => rw [e2] at h; cases h
  | bt st => rw [e] at h; cases h
  | cut st => rw [e] at h; cases h

theorem advances_pTakeEscapedAux (normal : Char → Bool) (control : Char)
    (fuel : Nat) : ∀ l rest, pTakeEscapedAux normal control fuel l = some rest →
    ∃ pre, l = pre ++ rest := by
  induction fuel with
  | zero =>
    intro l rest h
    match l with
    | [] => cases h; exact ⟨[], rfl⟩
    | c :: cs => cases h
  | succ n ih =>
    intro l rest h
    match l with
    | [] => cases h; exact ⟨[], rfl⟩
    | c :: cs =>
      unfold pTakeEscapedAux at h
      by_cases hn : normal c
      · rw [if_pos hn] at h
        obtain ⟨pre, hpre⟩ := ih cs rest h
        exact ⟨c :: pre, by rw [hpre]; rfl⟩
      · rw [if_neg hn] at h
        by_cases hc : c = control
        · rw [if_pos hc] at h
          match cs with
          | [] => cases h
          | d :: cs2 =>
            obtain ⟨pre, hpre⟩ := ih cs2 rest h
            exact ⟨c :: d :: pre, by rw [hpre]; rfl⟩
        · rw [if_neg hc] at h
          cases h
          exact ⟨[], rfl⟩

theorem advances_pTakeEscaped (normal : Char → Bool) (control : Char) :
    Advances (pTakeEscaped normal control) := by
  intro i v i2 h
  unfold pTakeEscaped at h
  cases e : pTakeEscapedAux normal control i.rem.length i.rem with
  | some rest =>
    rw [e] at h; cases h
    exact advances_pTakeEscapedAux normal control i.rem.length i.rem rest e
  | none => rw [e] at h; cases h

theorem advances_pCutErr {α : Type} {p : PParser α} (hp : Advances p) :
    Advances (pCutErr p) := by
  intro i v i2 h
  unfold pCutErr at h
  cases e : p i with
  | ok a im => rw [e] at h; cases h; exact hp i v i2 e
  | bt st => rw [e] at h; cases h
  | cut st => rw [e] at h; cases h

theorem consumes_pTillLineEnding : Consumes pTillLineEnding (fun t => t) := by
  intro i v i2 h
  unfold pTillLineEnding at h
  dsimp only at h
  have hsuffix := takeWhile_append_drop (fun c => c ≠ '\n' && c ≠ '\r') i.rem
  split at h
  · split at h
    · cases h; exact hsuffix
    · cases h
  · cases h
  · cases h; exact hsuffix

/-! ## Per-production losslessness lemmas -/

theorem greensText_nil : greensText [] = [] := rfl

theorem greenText_tk (k : SyntaxKind) (t : List Char) :
    greenText (Green.token k t) = t := rfl

theorem greenText_nd (k : SyntaxKind) (cs : List Green) :
    greenText (Green.node k cs) = greensText cs := rfl

theorem greensText_cons (g : Green) (gs : List Green) :
    greensText (g :: gs) = greenText g ++ greensText gs := rfl

theorem flatten_map_greenText (l : List Green) :
    (l.map greenText).flatten = greensText l := by
  induction l with
  | nil => rfl
  | cons g gs ih => simp [greensText_cons, ih]

theorem consumes_congr {α : Type} {p : PParser α} {tx tx2 : α → List Char}
    (hp : Consumes p tx) (he : ∀ v, tx v = tx2 v) : Consumes p tx2 := by
  intro i v i2 h
  rw [← he v]
  exact hp i v i2 h

theorem consumes_ascii_char (c : Char) (k : SyntaxKind) :
    Consumes (ascii_char c k) greenText := by
  intro i v i2 h
  unfold ascii_char at h
  obtain ⟨a, im, h1, h2⟩ := bind_ok h
  obtain ⟨hv, hi⟩ := pure_ok h2
  subst hv; subst hi
  exact consumes_pChar c _ _ _ h1

theorem consumes_comment : Consumes comment greenText := by
  intro i v i2 h
  unfold comment at h
  obtain ⟨t, im, h1, h2⟩ := bind_ok h
  obtain ⟨hv, hi⟩ := pure_ok h2
  subst hv; subst hi
  exact consumes_pRecognize (advances_bind (consumes_pChar '#').advances
    (fun _ => advances_bind consumes_pTillLineEnding.advances
      (fun _ => advances_pure _))) _ _ _ h1

theorem consumes_space : Consumes space greenText := by
  intro i v i2 h
  unfold space at h
  cases e : pSpace1 i with
  | ok text im =>
    rw [e] at h; cases h
    exact consumes_pTakeWhileMin 1 _ i text im e
  | bt st => rw [e] at h; cases h
  | cut st => rw [e] at h; cases h

theorem consumes_linebreaks_or_spaces :
    Consumes linebreaks_or_spaces (fun t => t) :=
  consumes_pTakeWhileMin 1 _

theorem consumes_ws : Consumes ws greenText := by
  intro i v i2 h
  unfold ws at h
  cases e : pMultispace1 i with
  | ok text im =>
    rw [e] at h
    dsimp only at h
    cases e2 : detect_ws_indent text with
    | some indent =>
      rw [e2] at h; cases h
      exact consumes_pTakeWhileMin 1 _ i text im e
    | none =>
      rw [e2] at h; cases h
      exact consumes_pTakeWhileMin 1 _ i text im e
  | bt st => rw [e] at h; cases h
  | cut st => rw [e] at h; cases h

theorem consumes_cmt_or_ws : Consumes cmt_or_ws greenText := by
  unfold cmt_or_ws
  refine consumes_pDispatch (fun c => ?_)
  by_cases h1 : (c = ' ' || c = '\n' || c = '\t' || c = '\r') = true
  · rw [if_pos h1]; exact consumes_ws
  · rw [if_neg h1]
    by_cases h2 : c = '#'
    · rw [if_pos h2]; exact consumes_comment
    · rw [if_neg h2]; exact consumes_pFail _

theorem consumes_cmts_or_ws0 : Consumes cmts_or_ws0 greensText := by
  intro i v i2 h
  have h2 := consumes_pRepeat0 consumes_cmt_or_ws (i.rem.length + 1) i v i2 h
  simpa [flatten_map_greenText] using h2

theorem consumes_cmts_or_ws1 : Consumes cmts_or_ws1 greensText := by
  intro i v i2 h
  have h2 := consumes_pRepeat1 consumes_cmt_or_ws (i.rem.length + 1) i v i2 h
  simpa [flatten_map_greenText] using h2

theorem consumes_stateless_cmt_or_ws : Consumes stateless_cmt_or_ws greenText := by
  unfold stateless_cmt_or_ws
  refine consumes_pDispatch (fun c => ?_)
  by_cases h1 : (c = ' ' || c = '\n' || c = '\t' || c = '\r') = true
  · rw [if_pos h1]
    intro i v i2 h
    obtain ⟨t, im, hb1, hb2⟩ := bind_ok h
    obtain ⟨hv, hi⟩ := pure_ok hb2
    subst hv; subst hi
    exact consumes_pTakeWhileMin 1 _ _ _ _ hb1
  · rw [if_neg h1]
    by_cases h2 : c = '#'
    · rw [if_pos h2]; exact consumes_comment
    · rw [if_neg h2]; exact consumes_pFail _

theorem consumes_stateless_cmts_or_ws0 :
    Consumes stateless_cmts_or_ws0 greensText := by
  intro i v i2 h
  have h2 := consumes_pRepeat0 consumes_stateless_cmt_or_ws (i.rem.length + 1) i v i2 h
  simpa [flatten_map_greenText] using h2

theorem consumes_stateless_cmts_or_ws1 :
    Consumes stateless_cmts_or_ws1 greensText := by
  intro i v i2 h
  have h2 := consumes_pRepeat1 consumes_stateless_cmt_or_ws (i.rem.length + 1) i v i2 h
  simpa [flatten_map_greenText] using h2

theorem consumes_stateless_separate : Consumes stateless_separate greensText := by
  intro i v i2 h
  unfold stateless_separate at h
  split at h
  · cases e : pSpace1 i with
    | ok text im =>
      rw [e] at h; cases h
      have h2 := consumes_pTakeWhileMin 1 _ _ _ _ e
      simpa [greensText_cons, greensText_nil] using h2
    | bt st => rw [e] at h; cases h
    | cut st => rw [e] at h; cases h
  · exact consumes_stateless_cmts_or_ws1 i v i2 h

theorem consumes_anchor_name : Consumes anchor_name greenText := by
  intro i v i2 h
  unfold anchor_name at h
  obtain ⟨t, im, h1, h2⟩ := bind_ok h
  obtain ⟨hv, hi⟩ := pure_ok h2
  subst hv; subst hi
  exact consumes_pTakeTill1 _ _ _ _ h1

theorem consumes_verbatim_tag : Consumes verbatim_tag greenText := by
  intro i v i2 h
  unfold verbatim_tag at h
  obtain ⟨t, im, h1, h2⟩ := bind_ok h
  obtain ⟨hv, hi⟩ := pure_ok h2
  subst hv; subst hi
  refine consumes_pRecognize ?_ _ _ _ h1
  refine advances_bind (consumes_pLit _).advances (fun _ => ?_)
  refine advances_bind (advances_pCutErr ?_) (fun _ => advances_pure _)
  refine advances_bind (consumes_pTakeWhileMin 1 _).advances (fun _ => ?_)
  exact advances_bind (consumes_pChar '>').advances (fun _ => advances_pure _)

theorem consumes_tag_handle : Consumes tag_handle greenText := by
  intro i v i2 h
  unfold tag_handle at h
  obtain ⟨child, im, h1, h2⟩ := bind_ok h
  obtain ⟨hv, hi⟩ := pure_ok h2
  subst hv; subst hi
  have hc : Consumes (pAlt [
    (do
      let text ← pRecognize (do
        let _ ← pChar '!'
        let _ ← pTakeWhileMin 1 is_word_char
        let _ ← pChar '!'
        pure ())
      pure (tokG .TAG_HANDLE_NAMED text)),
    (do
      let text ← pLit ['!', '!']
      pure (tokG .TAG_HANDLE_SECONDARY text)),
    (do
      let text ← pLit ['!']
      pure (tokG .TAG_HANDLE_PRIMARY text))]) greenText := by
    refine consumes_pAlt ?_
    intro p hp
    simp only [List.mem_cons, List.not_mem_nil, or_false] at hp
    rcases hp with rfl | rfl | rfl
    · intro j w j2 hh
      obtain ⟨t, jm, hh1, hh2⟩ := bind_ok hh
      obtain ⟨hv2, hi2⟩ := pure_ok hh2
      subst hv2; subst hi2
      refine consumes_pRecognize ?_ _ _ _ hh1
      refine advances_bind (consumes_pChar '!').advances (fun _ => ?_)
      refine advances_bind (consumes_pTakeWhileMin 1 _).advances (fun _ => ?_)
      exact advances_bind (consumes_pChar '!').advances (fun _ => advances_pure _)
    · intro j w j2 hh
      obtain ⟨t, jm, hh1, hh2⟩ := bind_ok hh
      obtain ⟨hv2, hi2⟩ := pure_ok hh2
      subst hv2; subst hi2
      exact consumes_pLit _ _ _ _ hh1
    · intro j w j2 hh
      obtain ⟨t, jm, hh1, hh2⟩ := bind_ok hh
      obtain ⟨hv2, hi2⟩ := pure_ok hh2
      subst hv2; subst hi2
      exact consumes_pLit _ _ _ _ hh1
  have h3 := hc _ _ _ h1
  rw [h3]
  simp [tokG, nodeG, greenText_tk, greenText_nd, greensText_cons, greensText_nil, greensText_append, List.append_assoc]

theorem consumes_shorthand_tag : Consumes shorthand_tag greenText := by
  intro i v i2 h
  unfold shorthand_tag at h
  obtain ⟨handle, im, h1, h2⟩ := bind_ok h
  obtain ⟨chars, im2, h3, h4⟩ := bind_ok h2
  obtain ⟨hv, hi⟩ := pure_ok h4
  subst hv; subst hi
  rw [consumes_tag_handle _ _ _ h1, consumes_pTakeWhileMin 1 _ _ _ _ h3]
  simp [tokG, nodeG, greenText_tk, greenText_nd, greensText_cons, greensText_nil, greensText_append, List.append_assoc]

theorem consumes_non_specific_tag : Consumes non_specific_tag greenText := by
  intro i v i2 h
  unfold non_specific_tag at h
  obtain ⟨child, im, h1, h2⟩ := bind_ok h
  obtain ⟨hv, hi⟩ := pure_ok h2
  subst hv; subst hi
  rw [consumes_ascii_char '!' _ _ _ _ h1]
  simp [tokG, nodeG, greenText_tk, greenText_nd, greensText_cons, greensText_nil, greensText_append, List.append_assoc]

theorem consumes_tag_property : Consumes tag_property greenText := by
  intro i v i2 h
  unfold tag_property at h
  obtain ⟨child, im, h1, h2⟩ := bind_ok h
  obtain ⟨hv, hi⟩ := pure_ok h2
  subst hv; subst hi
  have hc := consumes_pAlt_cons consumes_verbatim_tag
    (consumes_pAlt_cons consumes_shorthand_tag
      (consumes_pAlt_cons consumes_non_specific_tag consumes_pAlt_nil))
  rw [hc _ _ _ h1]
  simp [tokG, nodeG, greenText_tk, greenText_nd, greensText_cons, greensText_nil, greensText_append, List.append_assoc]

theorem consumes_anchor_property : Consumes anchor_property greenText := by
  intro i v i2 h
  unfold anchor_property at h
  obtain ⟨amp, im, h1, h2⟩ := bind_ok h
  obtain ⟨name, im2, h3, h4⟩ := bind_ok h2
  obtain ⟨hv, hi⟩ := pure_ok h4
  subst hv; subst hi
  rw [consumes_ascii_char '&' _ _ _ _ h1,
    consumes_pCutErr consumes_anchor_name _ _ _ h3]
  simp [tokG, nodeG, greenText_tk, greenText_nd, greensText_cons, greensText_nil, greensText_append, List.append_assoc]

theorem consumes_aliasP : Consumes aliasP greenText := by
  intro i v i2 h
  unfold aliasP at h
  obtain ⟨star, im, h1, h2⟩ := bind_ok h
  obtain ⟨name, im2, h3, h4⟩ := bind_ok h2
  obtain ⟨hv, hi⟩ := pure_ok h4
  subst hv; subst hi
  rw [consumes_ascii_char '*' _ _ _ _ h1,
    consumes_pCutErr consumes_anchor_name _ _ _ h3]
  simp [tokG, nodeG, greenText_tk, greenText_nd, greensText_cons, greensText_nil, greensText_append, List.append_assoc]

theorem consumes_properties_second {prop : PParser Green}
    (hprop : Consumes prop greenText) :
    Consumes (pOpt (do
      let pr ← (do
        let trivias ← stateless_separate
        let t ← prop
        pure (trivias, t))
      let _ ← pPeek (pNot (do
        let _ ← pSpace1
        let _ ← pOneOf (fun c2 => c2 = '&' || c2 = '!')
        pure ()))
      pure pr))
      (optText (fun pr => greensText pr.1 ++ greenText pr.2)) := by
  refine consumes_pOpt ?_
  intro i v i2 h
  obtain ⟨pr, j1, h1, h⟩ := bind_ok h
  obtain ⟨_, j2, h2, h⟩ := bind_ok h
  obtain ⟨hv, hi⟩ := pure_ok h
  subst hv; subst hi
  obtain ⟨trivias, k1, g1, g⟩ := bind_ok h1
  obtain ⟨t, k2, g2, g⟩ := bind_ok g
  obtain ⟨gv, gi⟩ := pure_ok g
  subst gv; subst gi
  rw [consumes_stateless_separate _ _ _ g1, hprop _ _ _ g2,
    consumes_pPeek _ _ _ _ h2]
  simp [List.append_assoc]

theorem consumes_properties : Consumes properties greenText := by
  intro i v i2 h
  unfold properties at h
  obtain ⟨fs, im, h1, h⟩ := bind_ok h
  have hd : Consumes (pDispatch (fun c =>
      if c = '&' then do
        let a ← anchor_property
        let s ← pOpt (do
          let pr ← (do
            let trivias ← stateless_separate
            let t ← tag_property
            pure (trivias, t))
          let _ ← pPeek (pNot (do
            let _ ← pSpace1
            let _ ← pOneOf (fun c2 => c2 = '&' || c2 = '!')
            pure ()))
          pure pr)
        pure (a, s)
      else if c = '!' then do
        let t ← pCutErr tag_property
        let s ← pOpt (do
          let pr ← (do
            let trivias ← stateless_separate
            let a ← anchor_property
            pure (trivias, a))
          let _ ← pPeek (pNot (do
            let _ ← pSpace1
            let _ ← pOneOf (fun c2 => c2 = '&' || c2 = '!')
            pure ()))
          pure pr)
        pure (t, s)
      else pFail))
      (fun fs => greenText fs.1 ++
        (match fs.2 with
         | some pr => greensText pr.1 ++ greenText pr.2
         | none => [])) := by
    refine consumes_pDispatch (fun c => ?_)
    by_cases hc : c = '&'
    · rw [if_pos hc]
      intro j w j2 hh
      obtain ⟨a, k1, g1, hh⟩ := bind_ok hh
      obtain ⟨sv, k2, g2, hh⟩ := bind_ok hh
      obtain ⟨gv, gi⟩ := pure_ok hh
      subst gv; subst gi
      rw [consumes_anchor_property _ _ _ g1,
        consumes_properties_second consumes_tag_property _ _ _ g2]
      cases sv with
      | some pr => simp [optText, List.append_assoc]
      | none => simp [optText, List.append_assoc]
    · rw [if_neg hc]
      by_cases hc2 : c = '!'
      · rw [if_pos hc2]
        intro j w j2 hh
        obtain ⟨a, k1, g1, hh⟩ := bind_ok hh
        obtain ⟨sv, k2, g2, hh⟩ := bind_ok hh
        obtain ⟨gv, gi⟩ := pure_ok hh
        subst gv; subst gi
        rw [consumes_pCutErr consumes_tag_property _ _ _ g1,
          consumes_properties_second consumes_anchor_property _ _ _ g2]
        cases sv with
        | some pr => simp [optText, List.append_assoc]
        | none => simp [optText, List.append_assoc]
      · rw [if_neg hc2]; exact consumes_pFail _
  have hr := hd _ _ _ h1
  obtain ⟨first, second⟩ := fs
  cases second with
  | some ts =>
    obtain ⟨trivias, t⟩ := ts
    obtain ⟨hv, hi⟩ := pure_ok h
    subst hv; subst hi
    rw [hr]
    simp [tokG, nodeG, greenText_tk, greenText_nd, greensText_cons, greensText_nil, greensText_append, List.append_assoc]
  | none =>
    obtain ⟨hv, hi⟩ := pure_ok h
    subst hv; subst hi
    rw [hr]
    simp [tokG, nodeG, greenText_tk, greenText_nd, greensText_cons, greensText_nil, greensText_append, List.append_assoc]

theorem consumes_double_qouted_scalar : Consumes double_qouted_scalar greenText := by
  intro i v i2 h
  unfold double_qouted_scalar at h
  obtain ⟨t, im, h1, h2⟩ := bind_ok h
  obtain ⟨hv, hi⟩ := pure_ok h2
  subst hv; subst hi
  refine consumes_pRecognize ?_ _ _ _ h1
  refine advances_bind (consumes_pChar '"').advances (fun _ => ?_)
  refine advances_bind (advances_pCutErr ?_) (fun _ => advances_pure _)
  refine advances_bind (advances_pTakeEscaped _ _) (fun _ => ?_)
  exact advances_bind (consumes_pChar '"').advances (fun _ => advances_pure _)

theorem consumes_single_qouted_scalar : Consumes single_qouted_scalar greenText := by
  intro i v i2 h
  unfold single_qouted_scalar at h
  obtain ⟨t, im, h1, h2⟩ := bind_ok h
  obtain ⟨hv, hi⟩ := pure_ok h2
  subst hv; subst hi
  refine consumes_pRecognize ?_ _ _ _ h1
  intro j w j2 hh
  have hadv : Advances (do
      let _ ← pChar '\''
      let _ ← pCutErr (do
        let _ ← pRepeat0 (j.rem.length + 1) (pAlt [
          (do let _ ← pNoneOf (fun c => c = '\''); pure ()),
          (do let _ ← pLit ['\'', '\'']; pure ())])
        let _ ← pChar '\''
        pure ())
      pure ()) := by
    refine advances_bind (consumes_pChar '\'').advances (fun _ => ?_)
    refine advances_bind (advances_pCutErr ?_) (fun _ => advances_pure _)
    refine advances_bind (advances_pRepeat0 ?_ _) (fun _ => ?_)
    · refine advances_pAlt_cons ?_ (advances_pAlt_cons ?_ advances_pAlt_nil)
      · exact advances_bind (consumes_pNoneOf _).advances (fun _ => advances_pure _)
      · exact advances_bind (consumes_pLit _).advances (fun _ => advances_pure _)
    · exact advances_bind (consumes_pChar '\'').advances (fun _ => advances_pure _)
  exact hadv j w j2 hh

theorem advances_plain_scalar_chars : Advances plain_scalar_chars := by
  intro i v i2 h
  unfold plain_scalar_chars at h
  refine advances_bind (advances_pRepeat0 ?_ _) (fun _ => advances_pure _) i v i2 h
  refine advances_pAlt_cons ?_ (advances_pAlt_cons ?_ (advances_pAlt_cons ?_ advances_pAlt_nil))
  · exact advances_bind (consumes_pTakeTill1 _).advances (fun _ => advances_pure _)
  · refine advances_bind (consumes_pChar ':').advances (fun _ => ?_)
    exact advances_bind (consumes_pPeek _).advances (fun _ => advances_pure _)
  · refine advances_bind (consumes_pTakeWhileMin 1 _).advances (fun _ => ?_)
    exact advances_bind (consumes_pPeek _).advances (fun _ => advances_pure _)

theorem advances_plain_scalar_one_line : Advances plain_scalar_one_line := by
  unfold plain_scalar_one_line
  refine advances_bind ?_ (fun _ => advances_plain_scalar_chars)
  refine advances_pAlt_cons (consumes_pNoneOf _).advances
    (advances_pAlt_cons ?_ advances_pAlt_nil)
  refine advances_bind (consumes_pOneOf _).advances (fun _ => ?_)
  exact advances_bind (consumes_pPeek _).advances (fun _ => advances_pure _)

theorem consumes_plain_scalar : Consumes plain_scalar greenText := by
  intro i v i2 h
  unfold plain_scalar at h
  dsimp only at h
  split at h
  · obtain ⟨t, im, h1, h2⟩ := bind_ok h
    obtain ⟨hv, hi⟩ := pure_ok h2
    subst hv; subst hi
    refine consumes_pRecognize ?_ _ _ _ h1
    refine advances_bind advances_plain_scalar_one_line (fun _ => ?_)
    refine advances_bind (advances_pRepeat0 ?_ _) (fun _ => advances_pure _)
    refine advances_bind (advances_pVerifyMap ?_ _) (fun _ => advances_plain_scalar_chars)
    refine advances_bind (consumes_pTakeWhileMin 1 _).advances (fun _ => ?_)
    exact advances_bind (consumes_pPeek _).advances (fun _ => advances_pure _)
  · obtain ⟨t, im, h1, h2⟩ := bind_ok h
    obtain ⟨hv, hi⟩ := pure_ok h2
    subst hv; subst hi
    exact consumes_pRecognize advances_plain_scalar_one_line _ _ _ h1

theorem consumes_indent_indicator :
    Consumes indent_indicator (fun r => greenText r.1) := by
  intro i v i2 h
  unfold indent_indicator at h
  obtain ⟨t, im, h1, h2⟩ := bind_ok h
  obtain ⟨hv, hi⟩ := pure_ok h2
  subst hv; subst hi
  exact consumes_pRecognize (consumes_pOneOf _).advances _ _ _ h1

theorem consumes_chomping_indicator : Consumes chomping_indicator greenText := by
  intro i v i2 h
  unfold chomping_indicator at h
  obtain ⟨child, im, h1, h2⟩ := bind_ok h
  obtain ⟨hv, hi⟩ := pure_ok h2
  subst hv; subst hi
  have hd : Consumes (pDispatch (fun c =>
      if c = '+' then ascii_char '+' .PLUS
      else if c = '-' then ascii_char '-' .MINUS
      else if c = ' ' || c = '\n' || c = '\t' || c = '\r' then pFail
      else pCutErr pFail)) greenText := by
    refine consumes_pDispatch (fun c => ?_)
    by_cases hc1 : c = '+'
    · rw [if_pos hc1]; exact consumes_ascii_char _ _
    · rw [if_neg hc1]
      by_cases hc2 : c = '-'
      · rw [if_pos hc2]; exact consumes_ascii_char _ _
      · rw [if_neg hc2]
        by_cases hc3 : (c = ' ' || c = '\n' || c = '\t' || c = '\r') = true
        · rw [if_pos hc3]; exact consumes_pFail _
        · rw [if_neg hc3]; exact consumes_pCutErr (consumes_pFail _)
  rw [hd _ _ _ h1]
  simp [tokG, nodeG, greenText_tk, greenText_nd, greensText_cons, greensText_nil, greensText_append, List.append_assoc]

theorem consumes_block_scalar : Consumes block_scalar greenText := by
  intro i v i2 h
  unfold block_scalar at h
  dsimp only at h
  obtain ⟨style, j1, h1, h⟩ := bind_ok h
  obtain ⟨indicator, j2, h2, h⟩ := bind_ok h
  obtain ⟨sp, j3, h3, h⟩ := bind_ok h
  obtain ⟨cmt, j4, h4, h⟩ := bind_ok h
  obtain ⟨indent0, j5, h5, h⟩ := bind_ok h
  obtain ⟨text, j6, h6, h⟩ := bind_ok h
  have e1 := consumes_pAlt_cons (consumes_ascii_char '|' .BAR)
    (consumes_pAlt_cons (consumes_ascii_char '>' .GREATER_THAN)
      consumes_pAlt_nil) _ _ _ h1
  have e2 : j1.rem = (match indicator with
      | some (Sum.inl pr) => greenText pr.1.1 ++ optText greenText pr.2
      | some (Sum.inr pr) =>
        greenText pr.1 ++ optText (fun iv => greenText iv.1) pr.2
      | none => []) ++ j2.rem := by
    have hone : Consumes (pAlt [
        (do
          let ii ← indent_indicator
          let ch ← pOpt chomping_indicator
          pure (Sum.inl (ii, ch))),
        (do
          let ch ← chomping_indicator
          let ii ← pOpt indent_indicator
          pure (Sum.inr (ch, ii)))])
        (fun x => match x with
         | Sum.inl pr => greenText pr.1.1 ++ optText greenText pr.2
         | Sum.inr pr =>
           greenText pr.1 ++ optText (fun iv => greenText iv.1) pr.2) := by
      refine consumes_pAlt_cons ?_ (consumes_pAlt_cons ?_ consumes_pAlt_nil)
      · intro a b c hh
        obtain ⟨ii, k1, g1, hh⟩ := bind_ok hh
        obtain ⟨ch, k2, g2, hh⟩ := bind_ok hh
        obtain ⟨gv, gi⟩ := pure_ok hh
        subst gv; subst gi
        rw [consumes_indent_indicator _ _ _ g1,
          consumes_pOpt consumes_chomping_indicator _ _ _ g2]
        simp [List.append_assoc]
      · intro a b c hh
        obtain ⟨ch, k1, g1, hh⟩ := bind_ok hh
        obtain ⟨ii, k2, g2, hh⟩ := bind_ok hh
        obtain ⟨gv, gi⟩ := pure_ok hh
        subst gv; subst gi
        rw [consumes_chomping_indicator _ _ _ g1,
          consumes_pOpt consumes_indent_indicator _ _ _ g2]
        simp [List.append_assoc]
    have := consumes_pOpt hone _ _ _ h2
    cases indicator with
    | none => simpa [optText] using this
    | some x =>
      cases x with
      | inl pr => simpa [optText] using this
      | inr pr => simpa [optText] using this
  have e3 := consumes_pOpt consumes_space _ _ _ h3
  have e4 := consumes_pOpt consumes_comment _ _ _ h4
  have e5 := consumes_pPeek _ _ _ _ h5
  have e6 : j5.rem = optText (fun t => t) text ++ j6.rem := by
    refine consumes_pCond (consumes_pRecognize (advances_pRepeat0 ?_ _)) _ _ _ _ h6
    refine advances_pVerify ?_ _
    refine advances_bind (advances_pVerify
      consumes_linebreaks_or_spaces.advances _) (fun _ => ?_)
    exact advances_bind consumes_pTillLineEnding.advances
      (fun _ => advances_pure _)
  rcases text with _ | t
  all_goals (
    obtain ⟨hv, hi⟩ := pure_ok h
    subst hv; subst hi
    simp only [e1, e2, e3, e4, e5, e6]
    rcases indicator with _ | x
    · rcases sp with _ | s <;> rcases cmt with _ | c <;>
        simp [optText, tokG, nodeG, greenText_tk, greenText_nd,
          greensText_cons, greensText_nil, greensText_append, List.append_assoc]
    · rcases x with pr | pr
      · obtain ⟨⟨it, iv⟩, ch⟩ := pr
        rcases ch with _ | c2 <;> rcases sp with _ | s <;> rcases cmt with _ | c <;>
          simp [optText, tokG, nodeG, greenText_tk, greenText_nd,
            greensText_cons, greensText_nil, greensText_append, List.append_assoc]
      · obtain ⟨ch, ii⟩ := pr
        rcases ii with _ | iv2 <;> rcases sp with _ | s <;> rcases cmt with _ | c <;>
          simp [optText, tokG, nodeG, greenText_tk, greenText_nd,
            greensText_cons, greensText_nil, greensText_append, List.append_assoc])

theorem consumes_pWithRecognized_fst {α : Type} {p : PParser α}
    {tx : α → List Char} (hp : Consumes p tx) :
    Consumes (pWithRecognized p) (fun r => tx r.1) := by
  intro i v i2 h
  unfold pWithRecognized at h
  cases e : p i with
  | ok a im => rw [e] at h; cases h; exact hp _ _ _ e
  | bt st => rw [e] at h; cases h
  | cut st => rw [e] at h; cases h

theorem consumes_space_before_block_compact_collection :
    Consumes space_before_block_compact_collection greenText := by
  intro i v i2 h
  unfold space_before_block_compact_collection at h
  cases e : pWithRecognized space i with
  | ok r im =>
    rw [e] at h
    dsimp only at h
    cases h
    exact consumes_pWithRecognized_fst consumes_space i r im e
  | bt st => rw [e] at h; cases h
  | cut st => rw [e] at h; cases h

theorem greensText_flowEntriesFold_go
    (items : List (Sum (Green × List Green × Option Green) (List Green)))
    (acc : List Green) :
    greensText (items.foldl (fun children item =>
      match item with
      | Sum.inl (entry, trivias, comma) =>
        children ++ [entry] ++ trivias ++
          (match comma with | some c => [c] | none => [])
      | Sum.inr trivias => children ++ trivias) acc) =
    greensText acc ++ (items.map flowItemText).flatten := by
  induction items generalizing acc with
  | nil => simp [greensText_nil]
  | cons item rest ih =>
    cases item with
    | inl etc2 =>
      obtain ⟨entry, trivias, comma⟩ := etc2
      cases comma with
      | some c =>
        rw [List.foldl_cons]
        dsimp only
        rw [ih]
        simp [flowItemText, optText, greensText_append, greensText_cons,
          greensText_nil, List.append_assoc]
      | none =>
        rw [List.foldl_cons]
        dsimp only
        rw [ih]
        simp [flowItemText, optText, greensText_append, greensText_cons,
          greensText_nil, List.append_assoc]
    | inr trivias =>
      rw [List.foldl_cons]
      dsimp only
      rw [ih]
      simp [flowItemText, greensText_append, List.append_assoc]

theorem greensText_flowEntriesFold
    (items : List (Sum (Green × List Green × Option Green) (List Green))) :
    greensText (flowEntriesFold items) = (items.map flowItemText).flatten := by
  unfold flowEntriesFold
  rw [greensText_flowEntriesFold_go]
  simp [greensText_nil]

theorem consumes_flow_all : ∀ fuel : Nat,
    Consumes (flow_sequence fuel) greenText ∧
    Consumes (flow_sequence_entries fuel) greenText ∧
    Consumes (flow_sequence_entry fuel) greenText ∧
    Consumes (flow_map fuel) greenText ∧
    Consumes (flow_map_entries fuel) greenText ∧
    Consumes (flow_map_entry fuel) greenText ∧
    Consumes (flow_pair fuel) greenText ∧
    Consumes (flow_map_entry_key fuel) greenText ∧
    Consumes (flow_content fuel) greenText ∧
    Consumes (flow fuel) greenText := by
  intro fuel
  induction fuel with
  | zero =>
    refine ⟨?_, ?_, ?_, ?_, ?_, ?_, ?_, ?_, ?_, ?_⟩ <;>
      (intro i v i2 h; first
        | (rw [show flow_sequence 0 = pFail from rfl] at h; cases h)
        | (rw [show flow_sequence_entries 0 = pFail from rfl] at h; cases h)
        | (rw [show flow_sequence_entry 0 = pFail from rfl] at h; cases h)
        | (rw [show flow_map 0 = pFail from rfl] at h; cases h)
        | (rw [show flow_map_entries 0 = pFail from rfl] at h; cases h)
        | (rw [show flow_map_entry 0 = pFail from rfl] at h; cases h)
        | (rw [show flow_pair 0 = pFail from rfl] at h; cases h)
        | (rw [show flow_map_entry_key 0 = pFail from rfl] at h; cases h)
        | (rw [show flow_content 0 = pFail from rfl] at h; cases h)
        | (rw [show flow 0 = pFail from rfl] at h; cases h))
  | succ n ih =>
    obtain ⟨ihseq, ihseqents, ihseqent, ihmap, ihmapents, ihmapent,
      ihpair, ihkey, ihcontent, ihflow⟩ := ih
    have hcomma_seq : Consumes (pAlt [
        (do let c ← ascii_char ',' .COMMA; pure (some c)),
        (do let _ ← pPeek (pChar ']'); pure none)]) (optText greenText) := by
      refine consumes_pAlt_cons ?_ (consumes_pAlt_cons ?_ consumes_pAlt_nil)
      · intro a b c hh
        obtain ⟨x, k, g1, hh⟩ := bind_ok hh
        obtain ⟨gv, gi⟩ := pure_ok hh
        subst gv; subst gi
        rw [consumes_ascii_char ',' _ _ _ _ g1]
        simp [optText]
      · intro a b c hh
        obtain ⟨x, k, g1, hh⟩ := bind_ok hh
        obtain ⟨gv, gi⟩ := pure_ok hh
        subst gv; subst gi
        rw [consumes_pPeek _ _ _ _ g1]
        simp [optText]
    have hcomma_map : Consumes (pAlt [
        (do let c ← ascii_char ',' .COMMA; pure (some c)),
        (do let _ ← pPeek (pChar '}'); pure none)]) (optText greenText) := by
      refine consumes_pAlt_cons ?_ (consumes_pAlt_cons ?_ consumes_pAlt_nil)
      · intro a b c hh
        obtain ⟨x, k, g1, hh⟩ := bind_ok hh
        obtain ⟨gv, gi⟩ := pure_ok hh
        subst gv; subst gi
        rw [consumes_ascii_char ',' _ _ _ _ g1]
        simp [optText]
      · intro a b c hh
        obtain ⟨x, k, g1, hh⟩ := bind_ok hh
        obtain ⟨gv, gi⟩ := pure_ok hh
        subst gv; subst gi
        rw [consumes_pPeek _ _ _ _ g1]
        simp [optText]
    have hseqents : Consumes (flow_sequence_entries (n + 1)) greenText := by
      intro i v i2 h
      rw [show flow_sequence_entries (n + 1) = fun i => (do
        let items ← pRepeat0 (i.rem.length + 1) (pAlt [
          (do
            let entry ← flow_sequence_entry n
            let trivias ← stateless_cmts_or_ws0
            let comma ← pAlt [
              (do let c ← ascii_char ',' .COMMA; pure (some c)),
              (do let _ ← pPeek (pChar ']'); pure none)]
            pure (Sum.inl (entry, trivias, comma))),
          (do
            let trivias ← stateless_cmts_or_ws1
            pure (Sum.inr trivias))])
        pure (nodeG .FLOW_SEQ_ENTRIES (flowEntriesFold items))) i from rfl] at h
      obtain ⟨items, im, h1, h2⟩ := bind_ok h
      obtain ⟨hv, hi⟩ := pure_ok h2
      subst hv; subst hi
      have harm : Consumes (pAlt [
          (do
            let entry ← flow_sequence_entry n
            let trivias ← stateless_cmts_or_ws0
            let comma ← pAlt [
              (do let c ← ascii_char ',' .COMMA; pure (some c)),
              (do let _ ← pPeek (pChar ']'); pure none)]
            pure (Sum.inl (entry, trivias, comma))),
          (do
            let trivias ← stateless_cmts_or_ws1
            pure (Sum.inr trivias))]) flowItemText := by
        refine consumes_pAlt_cons ?_ (consumes_pAlt_cons ?_ consumes_pAlt_nil)
        · intro a b c hh
          obtain ⟨entry, k1, g1, hh⟩ := bind_ok hh
          obtain ⟨trivias, k2, g2, hh⟩ := bind_ok hh
          obtain ⟨comma, k3, g3, hh⟩ := bind_ok hh
          obtain ⟨gv, gi⟩ := pure_ok hh
          subst gv; subst gi
          rw [ihseqent _ _ _ g1, consumes_stateless_cmts_or_ws0 _ _ _ g2,
            hcomma_seq _ _ _ g3]
          simp [flowItemText, List.append_assoc]
        · intro a b c hh
          obtain ⟨trivias, k1, g1, hh⟩ := bind_ok hh
          obtain ⟨gv, gi⟩ := pure_ok hh
          subst gv; subst gi
          rw [consumes_stateless_cmts_or_ws1 _ _ _ g1]
          simp [flowItemText]
      have := consumes_pRepeat0 harm (i.rem.length + 1) _ _ _ h1
      rw [this]
      simp [nodeG, greenText_nd, greensText_flowEntriesFold]
    have hmapents : Consumes (flow_map_entries (n + 1)) greenText := by
      intro i v i2 h
      rw [show flow_map_entries (n + 1) = fun i => (do
        let items ← pRepeat0 (i.rem.length + 1) (pAlt [
          (do
            let entry ← flow_map_entry n
            let trivias ← stateless_cmts_or_ws0
            let comma ← pAlt [
              (do let c ← ascii_char ',' .COMMA; pure (some c)),
              (do let _ ← pPeek (pChar '}'); pure none)]
            pure (Sum.inl (entry, trivias, comma))),
          (do
            let trivias ← stateless_cmts_or_ws1
            pure (Sum.inr trivias))])
        pure (nodeG .FLOW_MAP_ENTRIES (flowEntriesFold items))) i from rfl] at h
      obtain ⟨items, im, h1, h2⟩ := bind_ok h
      obtain ⟨hv, hi⟩ := pure_ok h2
      subst hv; subst hi
      have harm : Consumes (pAlt [
          (do
            let entry ← flow_map_entry n
            let trivias ← stateless_cmts_or_ws0
            let comma ← pAlt [
              (do let c ← ascii_char ',' .COMMA; pure (some c)),
              (do let _ ← pPeek (pChar '}'); pure none)]
            pure (Sum.inl (entry, trivias, comma))),
          (do
            let trivias ← stateless_cmts_or_ws1
            pure (Sum.inr trivias))]) flowItemText := by
        refine consumes_pAlt_cons ?_ (consumes_pAlt_cons ?_ consumes_pAlt_nil)
        · intro a b c hh
          obtain ⟨entry, k1, g1, hh⟩ := bind_ok hh
          obtain ⟨trivias, k2, g2, hh⟩ := bind_ok hh
          obtain ⟨comma, k3, g3, hh⟩ := bind_ok hh
          obtain ⟨gv, gi⟩ := pure_ok hh
          subst gv; subst gi
          rw [ihmapent _ _ _ g1, consumes_stateless_cmts_or_ws0 _ _ _ g2,
            hcomma_map _ _ _ g3]
          simp [flowItemText, List.append_assoc]
        · intro a b c hh
          obtain ⟨trivias, k1, g1, hh⟩ := bind_ok hh
          obtain ⟨gv, gi⟩ := pure_ok hh
          subst gv; subst gi
          rw [consumes_stateless_cmts_or_ws1 _ _ _ g1]
          simp [flowItemText]
      have := consumes_pRepeat0 harm (i.rem.length + 1) _ _ _ h1
      rw [this]
      simp [nodeG, greenText_nd, greensText_flowEntriesFold]
    have hseq : Consumes (flow_sequence (n + 1)) greenText := by
      intro i v i2 h
      unfold flow_sequence at h
      obtain ⟨l, j1, h1, h⟩ := bind_ok h
      obtain ⟨lead, j2, h2, h⟩ := bind_ok h
      obtain ⟨entries, j3, h3, h⟩ := bind_ok h
      obtain ⟨r, j4, h4, h⟩ := bind_ok h
      obtain ⟨hv, hi⟩ := pure_ok h
      subst hv; subst hi
      rw [consumes_ascii_char '[' _ _ _ _ h1,
        consumes_stateless_cmts_or_ws0 _ _ _ h2,
        consumes_pSetState ihseqents _ _ _ _ h3,
        consumes_ascii_char ']' _ _ _ _ h4]
      simp [tokG, nodeG, greenText_tk, greenText_nd, greensText_cons,
        greensText_nil, greensText_append, List.append_assoc]
    have hmap : Consumes (flow_map (n + 1)) greenText := by
      intro i v i2 h
      unfold flow_map at h
      obtain ⟨l, j1, h1, h⟩ := bind_ok h
      obtain ⟨lead, j2, h2, h⟩ := bind_ok h
      obtain ⟨entries, j3, h3, h⟩ := bind_ok h
      obtain ⟨r, j4, h4, h⟩ := bind_ok h
      obtain ⟨hv, hi⟩ := pure_ok h
      subst hv; subst hi
      rw [consumes_ascii_char '{' _ _ _ _ h1,
        consumes_stateless_cmts_or_ws0 _ _ _ h2,
        consumes_pSetState ihmapents _ _ _ _ h3,
        consumes_ascii_char '}' _ _ _ _ h4]
      simp [tokG, nodeG, greenText_tk, greenText_nd, greensText_cons,
        greensText_nil, greensText_append, List.append_assoc]
    have hseqent : Consumes (flow_sequence_entry (n + 1)) greenText := by
      intro i v i2 h
      unfold flow_sequence_entry at h
      obtain ⟨child, im, h1, h2⟩ := bind_ok h
      obtain ⟨hv, hi⟩ := pure_ok h2
      subst hv; subst hi
      have hc : Consumes (pAlt [
          (do
            let f ← flow n
            let _ ← pPeek (pNot (do
              let _ ← stateless_cmts_or_ws0
              let _ ← pChar ':'
              pure ()))
            pure f),
          flow_pair n]) greenText := by
        refine consumes_pAlt_cons ?_ (consumes_pAlt_cons ihpair consumes_pAlt_nil)
        intro a b c hh
        obtain ⟨f, k1, g1, hh⟩ := bind_ok hh
        obtain ⟨x, k2, g2, hh⟩ := bind_ok hh
        obtain ⟨gv, gi⟩ := pure_ok hh
        subst gv; subst gi
        rw [ihflow _ _ _ g1, consumes_pPeek _ _ _ _ g2]
        simp
      rw [hc _ _ _ h1]
      simp [tokG, nodeG, greenText_tk, greenText_nd, greensText_cons,
        greensText_nil, greensText_append, List.append_assoc]
    have hkey : Consumes (flow_map_entry_key (n + 1)) greenText := by
      intro i v i2 h
      unfold flow_map_entry_key at h
      have hc : Consumes (pAlt [
          (do
            let f ← flow n
            pure (nodeG .FLOW_MAP_KEY [f])),
          (do
            let q ← ascii_char '?' .QUESTION_MARK
            let key ← pOpt (do
              let trivias ← stateless_cmts_or_ws1
              let f ← flow n
              pure (trivias, f))
            pure (nodeG .FLOW_MAP_KEY
              (q :: (match key with
                     | some (trivias, f) => trivias ++ [f]
                     | none => []))))]) greenText := by
        refine consumes_pAlt_cons ?_ (consumes_pAlt_cons ?_ consumes_pAlt_nil)
        · intro a b c hh
          obtain ⟨f, k1, g1, hh⟩ := bind_ok hh
          obtain ⟨gv, gi⟩ := pure_ok hh
          subst gv; subst gi
          rw [ihflow _ _ _ g1]
          simp [tokG, nodeG, greenText_tk, greenText_nd, greensText_cons,
            greensText_nil, greensText_append, List.append_assoc]
        · intro a b c hh
          obtain ⟨q, k1, g1, hh⟩ := bind_ok hh
          obtain ⟨key, k2, g2, hh⟩ := bind_ok hh
          obtain ⟨gv, gi⟩ := pure_ok hh
          subst gv; subst gi
          have hopt := @consumes_pOpt _ _ (fun pr => greensText pr.1 ++ greenText pr.2)
            (by
              intro a2 b2 c2 gg
              obtain ⟨trivias, m1, f1, gg⟩ := bind_ok gg
              obtain ⟨f, m2, f2, gg⟩ := bind_ok gg
              obtain ⟨fv, fi⟩ := pure_ok gg
              subst fv; subst fi
              rw [consumes_stateless_cmts_or_ws1 _ _ _ f1, ihflow _ _ _ f2]
              simp [List.append_assoc]) _ _ _ g2
          rw [consumes_ascii_char '?' _ _ _ _ g1, hopt]
          cases key with
          | some pr =>
            obtain ⟨trivias, f⟩ := pr
            simp [optText, tokG, nodeG, greenText_tk, greenText_nd,
              greensText_cons, greensText_nil, greensText_append, List.append_assoc]
          | none =>
            simp [optText, tokG, nodeG, greenText_tk, greenText_nd,
              greensText_cons, greensText_nil, greensText_append, List.append_assoc]
      exact hc _ _ _ h
    have hmapent : Consumes (flow_map_entry (n + 1)) greenText := by
      intro i v i2 h
      unfold flow_map_entry at h
      have hc : Consumes (pAlt [
          (do
            let key ← pOpt (do
              let k ← flow_map_entry_key n
              let trivias ← stateless_cmts_or_ws0
              pure (k, trivias))
            let colon ← ascii_char ':' .COLON
            let value ← pOpt (do
              let trivias ← stateless_cmts_or_ws0
              let f ← flow n
              pure (trivias, f))
            pure (nodeG .FLOW_MAP_ENTRY
              ((match key with
                | some (k, trivias) => k :: trivias
                | none => []) ++ [colon] ++
               (match value with
                | some (trivias, f) => trivias ++ [nodeG .FLOW_MAP_VALUE [f]]
                | none => [])))),
          (do
            let k ← flow_map_entry_key n
            pure (nodeG .FLOW_MAP_ENTRY [k]))]) greenText := by
        refine consumes_pAlt_cons ?_ (consumes_pAlt_cons ?_ consumes_pAlt_nil)
        · intro a b c hh
          obtain ⟨key, k1, g1, hh⟩ := bind_ok hh
          obtain ⟨colon, k2, g2, hh⟩ := bind_ok hh
          obtain ⟨value, k3, g3, hh⟩ := bind_ok hh
          obtain ⟨gv, gi⟩ := pure_ok hh
          subst gv; subst gi
          have hkeyopt := @consumes_pOpt _ _ (fun pr => greenText pr.1 ++ greensText pr.2)
            (by
              intro a2 b2 c2 gg
              obtain ⟨k, m1, f1, gg⟩ := bind_ok gg
              obtain ⟨trivias, m2, f2, gg⟩ := bind_ok gg
              obtain ⟨fv, fi⟩ := pure_ok gg
              subst fv; subst fi
              rw [ihkey _ _ _ f1, consumes_stateless_cmts_or_ws0 _ _ _ f2]
              simp [List.append_assoc]) _ _ _ g1
          have hvalopt := @consumes_pOpt _ _ (fun pr => greensText pr.1 ++ greenText pr.2)
            (by
              intro a2 b2 c2 gg
              obtain ⟨trivias, m1, f1, gg⟩ := bind_ok gg
              obtain ⟨f, m2, f2, gg⟩ := bind_ok gg
              obtain ⟨fv, fi⟩ := pure_ok gg
              subst fv; subst fi
              rw [consumes_stateless_cmts_or_ws0 _ _ _ f1, ihflow _ _ _ f2]
              simp [List.append_assoc]) _ _ _ g3
          rw [hkeyopt, consumes_ascii_char ':' _ _ _ _ g2, hvalopt]
          rcases key with _ | ⟨k, trivias⟩ <;> rcases value with _ | ⟨trivias2, f⟩ <;>
            simp [optText, tokG, nodeG, greenText_tk, greenText_nd,
              greensText_cons, greensText_nil, greensText_append, List.append_assoc]
        · intro a b c hh
          obtain ⟨k, k1, g1, hh⟩ := bind_ok hh
          obtain ⟨gv, gi⟩ := pure_ok hh
          subst gv; subst gi
          rw [ihkey _ _ _ g1]
          simp [tokG, nodeG, greenText_tk, greenText_nd, greensText_cons,
            greensText_nil, greensText_append, List.append_assoc]
      exact hc _ _ _ h
    have hpair : Consumes (flow_pair (n + 1)) greenText := by
      intro i v i2 h
      unfold flow_pair at h
      obtain ⟨key, j1, h1, h⟩ := bind_ok h
      obtain ⟨tbc, j2, h2, h⟩ := bind_ok h
      obtain ⟨colon, j3, h3, h⟩ := bind_ok h
      obtain ⟨value, j4, h4, h⟩ := bind_ok h
      obtain ⟨hv, hi⟩ := pure_ok h
      subst hv; subst hi
      have hkeyopt := @consumes_pOpt _ _ greenText
        (consumes_pDispatch2 (fun a b => by
          by_cases hab : (a = '?' && (b = ' ' || b = '\t' || b = '\n' || b = '\r')) = true
          · rw [if_pos hab]; exact ihkey
          · rw [if_neg hab]; exact consumes_pSetState ihkey _)) _ _ _ h1
      have hvalopt := @consumes_pOpt _ _ (fun pr => greensText pr.1 ++ greenText pr.2)
        (by
          intro a2 b2 c2 gg
          obtain ⟨trivias, m1, f1, gg⟩ := bind_ok gg
          obtain ⟨f, m2, f2, gg⟩ := bind_ok gg
          obtain ⟨fv, fi⟩ := pure_ok gg
          subst fv; subst fi
          rw [consumes_stateless_cmts_or_ws0 _ _ _ f1, ihflow _ _ _ f2]
          simp [List.append_assoc]) _ _ _ h4
      rw [hkeyopt, consumes_stateless_cmts_or_ws0 _ _ _ h2,
        consumes_ascii_char ':' _ _ _ _ h3, hvalopt]
      rcases key with _ | k <;> rcases value with _ | ⟨trivias2, f⟩ <;>
        simp [optText, tokG, nodeG, greenText_tk, greenText_nd,
          greensText_cons, greensText_nil, greensText_append, List.append_assoc]
    have hcontent : Consumes (flow_content (n + 1)) greenText := by
      unfold flow_content
      refine consumes_pDispatch (fun c => ?_)
      by_cases h1 : c = '"'
      · rw [if_pos h1]; exact consumes_double_qouted_scalar
      · rw [if_neg h1]
        by_cases h2 : c = '\''
        · rw [if_pos h2]; exact consumes_single_qouted_scalar
        · rw [if_neg h2]
          by_cases h3 : c = '['
          · rw [if_pos h3]; exact ihseq
          · rw [if_neg h3]
            by_cases h4 : c = '{'
            · rw [if_pos h4]; exact ihmap
            · rw [if_neg h4]; exact consumes_plain_scalar
    have hflow : Consumes (flow (n + 1)) greenText := by
      unfold flow
      refine consumes_pDispatch (fun c => ?_)
      by_cases h1 : c = '*'
      · rw [if_pos h1]
        intro a b c2 hh
        obtain ⟨al, k1, g1, hh⟩ := bind_ok hh
        obtain ⟨gv, gi⟩ := pure_ok hh
        subst gv; subst gi
        rw [consumes_aliasP _ _ _ g1]
        simp [tokG, nodeG, greenText_tk, greenText_nd, greensText_cons,
          greensText_nil, greensText_append, List.append_assoc]
      · rw [if_neg h1]
        by_cases h2 : (c = '&' || c = '!') = true
        · rw [if_pos h2]
          intro a b c2 hh
          obtain ⟨props, k1, g1, hh⟩ := bind_ok hh
          obtain ⟨content, k2, g2, hh⟩ := bind_ok hh
          obtain ⟨gv, gi⟩ := pure_ok hh
          subst gv; subst gi
          have hcontopt := @consumes_pOpt _ _ (fun pr => greensText pr.1 ++ greenText pr.2)
            (by
              intro a2 b2 c3 gg
              obtain ⟨trivias, m1, f1, gg⟩ := bind_ok gg
              obtain ⟨fc, m2, f2, gg⟩ := bind_ok gg
              obtain ⟨fv, fi⟩ := pure_ok gg
              subst fv; subst fi
              rw [consumes_stateless_separate _ _ _ f1, ihcontent _ _ _ f2]
              simp [List.append_assoc]) _ _ _ g2
          rw [consumes_properties _ _ _ g1, hcontopt]
          rcases content with _ | ⟨trivias, fc⟩ <;>
            simp [optText, tokG, nodeG, greenText_tk, greenText_nd,
              greensText_cons, greensText_nil, greensText_append, List.append_assoc]
        · rw [if_neg h2]
          intro a b c2 hh
          obtain ⟨fc, k1, g1, hh⟩ := bind_ok hh
          obtain ⟨gv, gi⟩ := pure_ok hh
          subst gv; subst gi
          rw [ihcontent _ _ _ g1]
          simp [tokG, nodeG, greenText_tk, greenText_nd, greensText_cons,
            greensText_nil, greensText_append, List.append_assoc]
    exact ⟨hseq, hseqents, hseqent, hmap, hmapents, hmapent, hpair, hkey,
      hcontent, hflow⟩

/-! ## Forward evaluation helpers -/

theorem bind_run_bt {α β : Type} {p : PParser α} {f : α → PParser β} {i : PInput}
    {s : RState} (h : p i = .bt s) : (p >>= f) i = .bt s := by
  show (match p i with
        | .ok v i2 => f v i2
        | .bt st => .bt st
        | .cut st => .cut st) = .bt s
  rw [h]

theorem bind_run_cut {α β : Type} {p : PParser α} {f : α → PParser β} {i : PInput}
    {s : RState} (h : p i = .cut s) : (p >>= f) i = .cut s := by
  show (match p i with
        | .ok v i2 => f v i2
        | .bt st => .bt st
        | .cut st => .cut st) = .cut s
  rw [h]

theorem bind_run_ok {α β : Type} {p : PParser α} {f : α → PParser β} {i : PInput}
    {v : α} {i2 : PInput} (h : p i = .ok v i2) : (p >>= f) i = f v i2 := by
  show (match p i with
        | .ok v i2 => f v i2
        | .bt st => .bt st
        | .cut st => .cut st) = f v i2
  rw [h]

theorem pAlt_run_bt {α : Type} {p : PParser α} {ps : List (PParser α)} {i : PInput}
    {s : RState} (h : p i = .bt s) : pAlt (p :: ps) i = pAlt ps ⟨i.rem, s⟩ := by
  simp only [pAlt]
  rw [h]

theorem pAlt_run_cut {α : Type} {p : PParser α} {ps : List (PParser α)} {i : PInput}
    {s : RState} (h : p i = .cut s) : pAlt (p :: ps) i = .cut s := by
  simp only [pAlt]
  rw [h]

theorem pAlt_run_bt_then {α : Type} {p : PParser α} {ps : List (PParser α)}
    {i : PInput} {s : RState} {r : PR α} (h1 : p i = .bt s)
    (h2 : pAlt ps ⟨i.rem, s⟩ = r) : pAlt (p :: ps) i = r :=
  (pAlt_run_bt h1).trans h2

theorem pOpt_run_bt {α : Type} {p : PParser α} {i : PInput} {s : RState}
    (h : p i = .bt s) : pOpt p i = .ok none ⟨i.rem, s⟩ := by
  simp only [pOpt]
  rw [h]

theorem pVerify_run_false {α : Type} {p : PParser α} {f : α → Bool} {i : PInput}
    {v : α} {r2 : List Char} {s2 : RState} (h : p i = .ok v ⟨r2, s2⟩)
    (hf : f v = false) : pVerify p f i = .bt s2 := by
  simp only [pVerify]
  rw [h]
  simp [hf]

theorem pCutErr_run_bt {α : Type} {p : PParser α} {i : PInput} {s : RState}
    (h : p i = .bt s) : pCutErr p i = .cut s := by
  simp only [pCutErr]
  rw [h]

/-! ## Supporting lemmas for the quote rewrites (§4.6) -/

/-- A character that is not an apostrophe passes through
`replace("''", "'")` untouched. -/
theorem replaceDD_cons_ne (c : Char) (t : List Char) (hc : ¬ c = '\'') :
    replaceDD (c :: t) = c :: replaceDD t := by
  cases t with
  | nil => simp [replaceDD]
  | cons d t2 => simp [replaceDD, hc]

/-- An escaped apostrophe pair collapses to one apostrophe. -/
theorem replaceDD_cons_pair (t : List Char) :
    replaceDD ('\'' :: '\'' :: t) = '\'' :: replaceDD t := by
  simp [replaceDD]

/-- Escaping every apostrophe (`'`→`''`, the `ForceSingle` rewrite) and
then unescaping pairs (`''`→`'`, the `ForceDouble` rewrite) is the
identity: the code's rewrite directions are the faithful ones. -/
theorem replaceDD_replaceSD (s : List Char) :
    replaceDD (replaceSD s) = s := by
  induction s with
  | nil => rfl
  | cons c t ih =>
    by_cases hc : c = '\''
    · subst hc
      have h1 : replaceSD ('\'' :: t) = '\'' :: '\'' :: replaceSD t := by
        simp [replaceSD]
      rw [h1, replaceDD_cons_pair, ih]
    · simp only [replaceSD, if_neg hc]
      rw [replaceDD_cons_ne c _ hc, ih]

/-! ## Supporting lemmas for the indent bitset (detect_base_indent) -/

theorem findIdx?_replicate_space {p : Char → Bool} (hp : p ' ' = false)
    {c : Char} (hc : p c = true) (rest : List Char) :
    ∀ (n i : Nat),
      List.findIdx? p (List.replicate n ' ' ++ c :: rest) i = some (n + i)
  | 0, i => by simp [List.findIdx?_cons, hc]
  | n + 1, i => by
    rw [List.replicate_succ, List.cons_append, List.findIdx?_cons, hp]
    simp only [Bool.false_eq_true, if_false]
    rw [findIdx?_replicate_space hp hc rest n (i + 1)]
    congr 1
    omega

theorem findIdx?_replicate_none {p : Char → Bool} {a : Char} (hp : p a = false) :
    ∀ (n i : Nat), List.findIdx? p (List.replicate n a) i = none
  | 0, _ => rfl
  | n + 1, i => by
    rw [List.replicate_succ, List.findIdx?_cons, hp]
    simp only [Bool.false_eq_true, if_false]
    exact findIdx?_replicate_none hp n (i + 1)

/-- `detect_base_indent` counts the leading spaces of a first line that
has a contentful character: there is no bound at 64 or anywhere else. -/
theorem detect_base_indent_replicate (n : Nat) (c : Char) (rest : List Char)
    (hc : isAsciiWs c = false) :
    detect_base_indent (List.replicate n ' ' ++ c :: rest) = some n := by
  unfold detect_base_indent
  have hsp : (fun ch => ! isAsciiWs ch) ' ' = false := by
    simp [isAsciiWs]
  have hcc : (fun ch => ! isAsciiWs ch) c = true := by
    simp [hc]
  rw [findIdx?_replicate_space hsp hcc rest n 0]
  simp only [Option.map, Nat.add_zero]
  have htake : (List.replicate n ' ' ++ c :: rest).take n = List.replicate n ' ' := by
    have := List.take_left (List.replicate n ' ') (c :: rest)
    rwa [List.length_replicate] at this
  rw [htake, List.reverse_replicate]
  have hnl : (fun ch : Char => decide (ch = '\n')) ' ' = false := by decide
  rw [findIdx?_replicate_none hnl n 0]

/-- `indent_indicator` accepts any single ASCII digit — `'0'` included —
and yields `str::parse::<usize>` of it. -/
theorem indent_indicator_digit (d : Char) (rest : List Char) (st : RState)
    (hd : d.isDigit = true) :
    indent_indicator ⟨d :: rest, st⟩ =
      .ok (tokG .INDENT_INDICATOR [d], d.toNat - 48) ⟨rest, st⟩ := by
  have h1 : pOneOf (fun c => c.isDigit) ⟨d :: rest, st⟩ = .ok d ⟨rest, st⟩ := by
    simp [pOneOf, hd]
  have h2 : pRecognize (pOneOf (fun c => c.isDigit)) ⟨d :: rest, st⟩ =
      .ok [d] ⟨rest, st⟩ := by
    simp [pRecognize, h1]
  unfold indent_indicator
  rw [bind_run_ok h2]
  rfl

/-! ## Claim theorems -/

/-- C1: losslessness of `parse` fails.  On the input `"?\n"` the
production `block_map_explicit_key` (the state is the one `parse`
reaches, see `stExplicitKey`) succeeds, consumes the whole input —
including the newline, through the token-less `line_ending.value(None)`
branch — and returns a `BLOCK_MAP_KEY` node whose depth-first token text
is `"?"`, not the consumed `"?\n"`. -/
theorem C1_newline_lost_in_explicit_key :
    (match block_map_explicit_key 8 ⟨['?', '\n'], stExplicitKey⟩ with
     | .ok v i2 => i2.rem.isEmpty && decide (greenText v = ['?'])
     | .bt _ => false
     | .cut _ => false) = true := by
  decide

/-- C4 (corrected): the last conjunct of `can_omit_question_mark` is an
EXISTS over the key's flow content — a linebreak-free flow-scalar token
or an ALIAS node enables omission — not the spec's "no flow scalar with
a line break AND no alias".  The code's predicate equals the amended
conjunction, and on the alias-only explicit key of `"? *a\n: b\n"` the
code omits the `?` while the spec's sentence forbids it. -/
theorem C4_question_mark_omission :
    (∀ (parent : Option (SyntaxKind × List Green)) (idx : Nat) (key : Green),
      can_omit_question_mark parent idx key =
        can_omit_question_mark_amended parent idx key) ∧
    can_omit_question_mark (some (.BLOCK_MAP_ENTRY, c4ParentElems)) 0 c4Key = true ∧
    can_omit_question_mark_spec (some (.BLOCK_MAP_ENTRY, c4ParentElems)) 0 c4Key
      = false :=
  ⟨fun _ _ _ => rfl, by decide, by decide⟩

/-- C4 counterexample: the explicit key of `"? *a\n: b\n"` holds only an
alias; the code's omission test passes where the spec's sentence says it
must fail. -/
theorem C4_counterexample :
    can_omit_question_mark (some (.BLOCK_MAP_ENTRY, c4ParentElems)) 0 c4Key = true ∧
    can_omit_question_mark_spec (some (.BLOCK_MAP_ENTRY, c4ParentElems)) 0 c4Key
      = false := by
  constructor
  · decide
  · decide

/-- C5 (corrected): the §4.6 table's rewrite column is swapped relative
to the code.  `format_quoted_scalar_line` applies `'`→`''` under
`ForceSingle` (a double-quoted source being re-quoted single) and
`''`→`'` under `ForceDouble` (a single-quoted source being re-quoted
double); the two rewrites are mutually inverse in the code's direction,
and on the single-quoted scalar `'it''s'` under `ForceDouble` the code
emits `it's` where the spec's direction would emit `it''''s`. -/
theorem C5_quote_rewrites :
    (∀ s : List Char, replaceDD (replaceSD s) = s) ∧
    single_quoted_selection c5Content .ForceDouble = (some .ForceDouble, ['"']) ∧
    format_quoted_scalar_line c5Content (some .ForceDouble) = ['i', 't', '\'', 's'] ∧
    double_quoted_selection ['i', 't', '\'', 's'] .ForceSingle
      = (some .ForceSingle, ['\'']) ∧
    format_quoted_scalar_line ['i', 't', '\'', 's'] (some .ForceSingle) = c5Content :=
  ⟨replaceDD_replaceSD, by decide, by decide, by decide, by decide⟩

/-- C5 counterexample: the content of `'it''s'` under `ForceDouble` is
emitted as `it's` (the code unescapes `''`→`'`); the spec's table says
`'`→`''` would be applied, which would give `it''''s`. -/
theorem C5_counterexample :
    format_quoted_scalar_line c5Content (some .ForceDouble) = ['i', 't', '\'', 's'] ∧
    replaceSD c5Content = ['i', 't', '\'', '\'', '\'', '\'', 's'] := by
  constructor
  · decide
  · decide

/-- C6 (corrected): the indent indicator is any single ASCII digit, `0`
included — `one_of(ascii_digit)` has no 1–9 restriction — and the block
scalar `"|0..."` is accepted with an `INDENT_INDICATOR` token `"0"`.
The error half of the claim holds: a header character that is no digit,
`+`, `-` or whitespace (here `?`) is a hard syntax error. -/
theorem C6_block_scalar_header :
    (∀ (d : Char) (rest : List Char) (st : RState), d.isDigit = true →
      indent_indicator ⟨d :: rest, st⟩ =
        .ok (tokG .INDENT_INDICATOR [d], d.toNat - 48) ⟨rest, st⟩) ∧
    block_scalar ⟨['|', '0', '\n', ' ', 'x', '\n'], stBlockHeader⟩ =
      .ok (nodeG .BLOCK_SCALAR [tokG .BAR ['|'], tokG .INDENT_INDICATOR ['0']])
        ⟨['\n', ' ', 'x', '\n'], stBlockHeader⟩ ∧
    block_scalar ⟨['|', '?', '\n'], stBlockHeader⟩ = .cut stBlockHeader :=
  ⟨indent_indicator_digit, by rfl, by rfl⟩

/-- C6 counterexample: the header `|0` — which the spec rejects — is
accepted, with the digit `0` tokenised as the indent indicator. -/
theorem C6_counterexample :
    block_scalar ⟨['|', '0', '\n', ' ', 'x', '\n'], stBlockHeader⟩ =
      .ok (nodeG .BLOCK_SCALAR [tokG .BAR ['|'], tokG .INDENT_INDICATOR ['0']])
        ⟨['\n', ' ', 'x', '\n'], stBlockHeader⟩ := by
  rfl

/-- C7: `VerifyIndent` records the pre-run indent and, after its child
succeeds, (1) succeeds unchanged when the indent is the recorded one or
the input is exhausted, (2) hard-fails (cut) when the bit for the new
indent is missing from the tracked bitset, (3) otherwise clears the bit
of the recorded pre-run indent (wrapping `u64` subtraction) and
backtracks. -/
theorem C7_verify_indent_policy {α : Type} (p : PParser α) (i : PInput)
    (v : α) (i2 : PInput) (h : p i = .ok v i2) :
    verify_indent p i =
      (if i2.st.indent = i.st.indent ∨ i2.rem = [] then .ok v i2
       else if i2.st.trackedIndents &&& 2 ^ (i2.st.indent % 64) = 0 then .cut i2.st
       else .bt { i2.st with
         trackedIndents :=
           (i2.st.trackedIndents + 2 ^ 64 - 2 ^ (i.st.indent % 64)) % 2 ^ 64 }) := by
  unfold verify_indent
  rw [h]
  dsimp only
  by_cases h1 : i2.st.indent = i.st.indent ∨ i2.rem = []
  · have hb : (decide (i2.st.indent = i.st.indent) || i2.rem.isEmpty) = true := by
      rcases h1 with h1 | h1 <;> simp [h1]
    rw [if_pos h1, if_pos hb]
  · rw [if_neg h1]
    push_neg at h1
    have hb : (decide (i2.st.indent = i.st.indent) || i2.rem.isEmpty) = false := by
      simp [h1.1, h1.2]
    rw [hb]
    simp only [Bool.false_eq_true, if_false]
    by_cases h2 : i2.st.trackedIndents &&& 2 ^ (i2.st.indent % 64) = 0
    · have hu : u64BitAbsent i2.st.trackedIndents i2.st.indent = true := by
        simp [u64BitAbsent, shl1, h2]
      rw [if_pos h2, if_pos hu]
    · have hu : u64BitAbsent i2.st.trackedIndents i2.st.indent = false := by
        simp [u64BitAbsent, shl1, h2]
      rw [if_neg h2, hu]
      simp only [Bool.false_eq_true, if_false]
      rfl

/-- C7 witness: a child that moves the indent from 1 to 3 with input
left over, while bit 3 of the tracked bitset is clear, makes
`VerifyIndent` hard-fail. -/
theorem C7_witness :
    verify_indent (fun i => .ok (0 : Nat) ⟨['x'], { i.st with indent := 3 }⟩)
        ⟨['y'], { initialState with indent := 1, trackedIndents := 2 }⟩ =
      .cut { initialState with indent := 3, trackedIndents := 2 } := by
  rw [C7_verify_indent_policy
      (fun i => .ok (0 : Nat) ⟨['x'], { i.st with indent := 3 }⟩)
      ⟨['y'], { initialState with indent := 1, trackedIndents := 2 }⟩
      0 ⟨['x'], { initialState with indent := 3, trackedIndents := 2 }⟩ rfl]
  rw [if_neg (by decide), if_pos (by decide)]

/-- C9: a flow map whose entries node has no child and which holds no
comment prints as exactly the two characters of `"{}"` whatever the
abstracted formatted-entries branch (where `brace_spacing` lives) would
produce; likewise an empty comment-free flow sequence prints as `"[]"`
for every `bracket_spacing`. -/
theorem C9_empty_flow_collections (fm sq : Green) (f g : Green → Doc)
    (e1 e2 : Green)
    (h1 : childNode .FLOW_MAP_ENTRIES fm = some e1) (h2 : e1.elements = [])
    (h3 : fm.elements.all (fun e => decide (e.kind ≠ .COMMENT)) = true)
    (h4 : childNode .FLOW_SEQ_ENTRIES sq = some e2) (h5 : e2.elements = [])
    (h6 : sq.elements.all (fun e => decide (e.kind ≠ .COMMENT)) = true) :
    flow_map_doc fm f = Doc.text ['\x7b', '\x7d'] ∧
    flow_seq_doc sq g = Doc.text ['[', ']'] := by
  constructor
  · unfold flow_map_doc
    rw [h1]
    dsimp only
    rw [h2, h3]
    simp
  · unfold flow_seq_doc
    rw [h4]
    dsimp only
    rw [h5, h6]
    simp

/-- C9 witness: the empty flow collections `{}` and `[]` as `parse`
builds them. -/
theorem C9_witness :
    flow_map_doc (nodeG .FLOW_MAP [tokG .L_BRACE ['\x7b'],
        nodeG .FLOW_MAP_ENTRIES [], tokG .R_BRACE ['\x7d']]) (fun _ => Doc.nil) =
      Doc.text ['\x7b', '\x7d'] ∧
    flow_seq_doc (nodeG .FLOW_SEQ [tokG .L_BRACKET ['['],
        nodeG .FLOW_SEQ_ENTRIES [], tokG .R_BRACKET [']']]) (fun _ => Doc.nil) =
      Doc.text ['[', ']'] :=
  C9_empty_flow_collections
    (nodeG .FLOW_MAP [tokG .L_BRACE ['\x7b'],
      nodeG .FLOW_MAP_ENTRIES [], tokG .R_BRACE ['\x7d']])
    (nodeG .FLOW_SEQ [tokG .L_BRACKET ['['],
      nodeG .FLOW_SEQ_ENTRIES [], tokG .R_BRACKET [']']])
    (fun _ => Doc.nil) (fun _ => Doc.nil)
    (nodeG .FLOW_MAP_ENTRIES []) (nodeG .FLOW_SEQ_ENTRIES [])
    rfl rfl rfl rfl rfl rfl

/-- C8: a document without a leading `---` is accepted only when the
previous document was closed by `...` (or none preceded, the flag
starting true).  First conjunct: on any input whose first character can
start neither a directive (`%`) nor a `...` nor a `---`, a document with
`prev_document_finished = false` is a hard syntax error (the `cut_err`
of `document`'s third branch).  Second conjunct: `document_end` (`...`)
is exactly what sets the flag back to true.  Third conjunct: the same
shape of input is accepted when the flag is true (the first document of
the input). -/
theorem C8_document_separation :
    (∀ (fuel : Nat) (st : RState) (c : Char) (rest : List Char),
      c ≠ '%' → c ≠ '.' → c ≠ '-' → st.prevDocumentFinished = false →
      document fuel ⟨c :: rest, st⟩ = .cut st) ∧
    (∀ (i : PInput) (v : Green) (i2 : PInput),
      document_end i = .ok v i2 → i2.st.prevDocumentFinished = true) ∧
    ((match document 48 ⟨['b'], initialState⟩ with
      | .ok _ i2 => i2.rem.isEmpty
      | .bt _ => false
      | .cut _ => false) = true) := by
  refine ⟨?_, ?_, by decide⟩
  · intro fuel st c rest hpc hdot hdash hfin
    have hchar : pChar '%' ⟨c :: rest, st⟩ = .bt st := by
      simp [pChar, hpc]
    have hdir : directive ⟨c :: rest, st⟩ = .bt st := by
      unfold directive
      refine bind_run_bt ?_
      unfold ascii_char
      exact bind_run_bt hchar
    have hpfxdot : (['.', '.', '.'].isPrefixOf (c :: rest)) = false := by
      have hbeq : ('.' == c) = false := beq_eq_false_iff_ne.mpr (Ne.symm hdot)
      simp [List.isPrefixOf, hbeq]
    have hpfxdash : (['-', '-', '-'].isPrefixOf (c :: rest)) = false := by
      have hbeq : ('-' == c) = false := beq_eq_false_iff_ne.mpr (Ne.symm hdash)
      simp [List.isPrefixOf, hbeq]
    have hlitdot : pLit ['.', '.', '.'] ⟨c :: rest, st⟩ = .bt st := by
      simp [pLit, hpfxdot]
    have hlitdash : pLit ['-', '-', '-'] ⟨c :: rest, st⟩ = .bt st := by
      simp [pLit, hpfxdash]
    have hdocEnd : document_end ⟨c :: rest, st⟩ = .bt st := by
      have h2 : document_end ⟨c :: rest, st⟩ =
          (match pLit ['.', '.', '.'] ⟨c :: rest, st⟩ with
           | .ok text i2 => (.ok (tokG .DOCUMENT_END text)
               ⟨i2.rem, { i2.st with prevDocumentFinished := true }⟩ : PR Green)
           | .bt s => .bt s
           | .cut s => .cut s) := rfl
      rw [h2, hlitdot]
    have hdirsEnd : directives_end ⟨c :: rest, st⟩ = .bt st := by
      unfold directives_end
      exact bind_run_bt hlitdash
    unfold document
    dsimp only
    apply pAlt_run_bt_then
    · apply bind_run_bt
      dsimp only
      unfold pRepeat1
      apply bind_run_bt
      exact bind_run_bt hdir
    · apply pAlt_run_bt_then
      · exact bind_run_bt hdocEnd
      · apply pAlt_run_cut
        apply bind_run_cut
        apply pCutErr_run_bt
        apply pVerify_run_false
        · exact pOpt_run_bt (bind_run_bt hdirsEnd)
        · dsimp only
          simp [hfin]
  · intro i v i2 h
    have h2 : (match pLit ['.', '.', '.'] i with
               | .ok text i3 => (.ok (tokG .DOCUMENT_END text)
                   ⟨i3.rem, { i3.st with prevDocumentFinished := true }⟩ : PR Green)
               | .bt s => .bt s
               | .cut s => .cut s) = .ok v i2 := h
    split at h2
    · cases h2; rfl
    · cases h2
    · cases h2

/-- C10 (corrected): nothing bounds the shift amount below 64 — an input
whose first line starts with 64 spaces gives `detect_base_indent = 64`,
so `parse` computes `1u64 << 64`.  In release mode Rust masks the shift
amount (`1 << 64 == 1`), so the bitset value itself always stays below
`2^64`; the amended safety statement is the masked bound, not the
claimed strict `< 64` shift amount. -/
theorem C10_indent_bitset_shifts :
    (∀ (n : Nat) (c : Char) (rest : List Char), isAsciiWs c = false →
      detect_base_indent (List.replicate n ' ' ++ c :: rest) = some n) ∧
    shl1 64 = 1 ∧
    (∀ n : Nat, shl1 n < 2 ^ 64) := by
  refine ⟨detect_base_indent_replicate, by decide, fun n => ?_⟩
  have h : n % 64 < 64 := Nat.mod_lt _ (by decide)
  exact Nat.pow_lt_pow_right (by decide) h

/-- C10 counterexample: 64 leading spaces reach `detect_base_indent =
64`, and the shift `parse` then performs is masked: `1 << 64` is `1`,
the bit for indent 0, not `2^64`. -/
theorem C10_counterexample :
    detect_base_indent (List.replicate 64 ' ' ++ ['a']) = some 64 ∧
    shl1 64 = 1 ∧ shl1 64 ≠ 2 ^ 64 := by
  refine ⟨by decide, by decide, by decide⟩

end PrettyYaml
